import Mathlib

/-!
# OpenQL: the Central Controller back end

A shallow embedding of `src/arch/cc/eqasm_backend_cc.cc`: the compile pipeline, the
kernel prologue and epilogue, the bundle code generator, the classical instruction
stub and the label derivation.

The back end talks to three collaborators whose code is elsewhere: the instruction
encoder `codegen`, the scheduler `cc_light_schedule` and the file writer
`ql::utils::write_file`. Every call made on one of them is recorded, in program order,
as an `Event`; a function of the back end is a function from the running bundle index
(the only member the code reads and updates) to a `Run`: how the call ended, the bundle
index it left, and the events it produced.
-/

namespace OpenQL

/-! ## Data model -/

/-- Modelled from the spec: the enumeration `gate_type_t` is declared in gate.h, which is
not among the sources. The six variants the spec names are kept under the names the
sources use for them; `other v` stands for any further enumerator, by its integer
value. -/
inductive gate_type_t where
  | __classical_gate__
  | __custom_gate__
  | __nop_gate__
  | __measure_gate__
  | __display__
  | __prepz_gate__
  | other (v : Nat)
  deriving DecidableEq

/-- Modelled from the spec: the class `ql::gate` is declared in gate.h, which is not
among the sources. The fields are those the sources read: `name`, `operands` (qubits),
`creg_operands`, `angle`, `duration` and the result of `type()`. The angle is only ever
copied, so it is carried as the bit pattern of the number. -/
structure gate where
  name : String
  operands : List Nat
  creg_operands : List Nat
  angle : Nat
  duration : Nat
  type : gate_type_t
  deriving DecidableEq

/-- The class `ql::circuit`: a vector of gates. -/
abbrev circuit := List gate

/-- The type `ql::ir::section_t`: the gates of one parallel section. -/
abbrev section_t := List gate

/-- Modelled from the spec: the class `ql::ir::bundle_t` is declared in ir.h, which is
not among the sources: a start cycle, a duration in cycles and the parallel sections in
order. -/
structure bundle_t where
  start_cycle : Nat
  duration_in_cycles : Nat
  parallel_sections : List section_t
  deriving DecidableEq

/-- The type `ql::ir::bundles_t`: the scheduler's result for one kernel. -/
abbrev bundles_t := List bundle_t

/-- Modelled from the spec: the enumeration `kernel_type_t` is declared in kernel.h,
which is not among the sources. The nine kernel types, and `other v` for a value outside
them, which is what the `default` cases of the two switches catch. -/
inductive kernel_type_t where
  | STATIC
  | FOR_START
  | FOR_END
  | DO_WHILE_START
  | DO_WHILE_END
  | IF_START
  | IF_END
  | ELSE_START
  | ELSE_END
  | other (v : Nat)
  deriving DecidableEq

/-- A classical register operand, as far as the sources read it: its `id`. -/
structure creg where
  id : Nat
  deriving DecidableEq

/-- The branch condition of a kernel, as far as the sources read it: the operand vector
(indexed at 0 and 1) and the name of the comparison. -/
structure operation where
  operands : List creg
  operation_name : String
  deriving DecidableEq

/-- Modelled from the spec: the class `ql::quantum_kernel` is declared in kernel.h, which
is not among the sources. The fields are those the sources read. -/
structure quantum_kernel where
  name : String
  type : kernel_type_t
  c : circuit
  iterations : Nat
  creg_count : Nat
  br_condition : operation
  deriving DecidableEq

/-- The platform, as far as the sources read it: the number of qubits. -/
structure quantum_platform where
  qubit_number : Nat
  deriving DecidableEq

/-- The two options `compile` reads through `ql::options::get`. -/
structure Options where
  output_dir : String
  backend_cc_map_input_file : String
  deriving DecidableEq

/-- What `compile` hands to `write_file`: the result of `codegen.getCode()` or of
`codegen.getMap()`. -/
inductive Content where
  | getCode
  | getMap
  deriving DecidableEq

/-- One call on a collaborator of the back end, with its arguments: the operations of
`codegen`, the scheduler `cc_light_schedule` and `ql::utils::write_file`. -/
inductive Event where
  | codegen_init (platform : quantum_platform)
  | program_start (prog_name : String)
  | program_finish (prog_name : String)
  | kernel_start
  | kernel_finish (kernelName : String) (durationInCycles : Nat)
  | comment (c : String)
  | if_start (op0 : Nat) (opName : String) (op1 : Nat)
  | else_start (op0 : Nat) (opName : String) (op1 : Nat)
  | for_start (label : String) (iterations : Nat)
  | for_end (label : String)
  | do_while_start (label : String)
  | do_while_end (label : String) (op0 : Nat) (opName : String) (op1 : Nat)
  | bundle_start (cmnt : String)
  | bundle_finish (start_cycle duration_in_cycles : Nat) (isLastBundle : Bool)
  | nop_gate
  | custom_gate (iname : String) (operands creg_operands : List Nat) (angle : Nat)
      (start_cycle duration : Nat)
  | cc_light_schedule (ckt : circuit) (platform : quantum_platform) (nqubits ncreg : Nat)
  | write_file (file_name : String) (content : Content)
  deriving DecidableEq

/-- How a call ended: it returned, it threw through `FATAL` with a message, or it ran
into an operation for which C++ defines no behaviour (an access outside a container). -/
inductive Status where
  | ok
  | fatal (msg : String)
  | undefined (what : String)
  deriving DecidableEq

/-- The result of running a piece of the back end from a given bundle index. The member
`bundleIdx` is declared in eqasm_backend_cc.h, which is not among the sources; it is
taken as a natural number. -/
structure Run where
  status : Status
  bundleIdx : Nat
  out : List Event
  deriving DecidableEq

/-- A step that returns without calling anything. -/
def skip (idx : Nat) : Run := ⟨.ok, idx, []⟩

/-- A single call on a collaborator. -/
def emit (e : Event) (idx : Nat) : Run := ⟨.ok, idx, [e]⟩

/-- The macro `FATAL(msg)`: throw with the message. -/
def FATAL (msg : String) (idx : Nat) : Run := ⟨.fatal msg, idx, []⟩

/-- An operation without defined behaviour. -/
def UB (what : String) (idx : Nat) : Run := ⟨.undefined what, idx, []⟩

/-- Sequencing of statements: the second runs from the bundle index the first left, and
only if the first returned. -/
def Run.andThen (r : Run) (f : Nat → Run) : Run :=
  match r.status with
  | .ok => ⟨(f r.bundleIdx).status, (f r.bundleIdx).bundleIdx, r.out ++ (f r.bundleIdx).out⟩
  | _ => r

/-! ## eqasm_backend_cc.cc -/

/-- The fifteen names of `QASM_CLASSICAL_INSTRUCTION_LIST`, in the order of the list. -/
def QASM_CLASSICAL_INSTRUCTION_LIST : List String :=
  ["add", "sub", "and", "or", "xor", "not", "nop", "ldi", "mov",
   "eq", "ne", "lt", "gt", "le", "ge"]

/-- The conversion of a `size_t` to a 32 bit `int`, as in `int n = v.size()`. -/
def toInt32 (n : Nat) : Int :=
  if n % 2 ^ 32 < 2 ^ 31 then ((n % 2 ^ 32 : Nat) : Int) else ((n % 2 ^ 32 : Nat) : Int) - 2 ^ 32

/-- The local `iopers_count` of `codegen_classical_instruction`. -/
def iopers_count (classical_ins : gate) : Int :=
  toInt32 classical_ins.creg_operands.length

/-- The function `eqasm_backend_cc::codegen_classical_instruction`. -/
def codegen_classical_instruction (classical_ins : gate) (idx : Nat) : Run :=
  let iname := classical_ins.name
  if iname == "add" || iname == "sub" ||
     iname == "and" || iname == "or" || iname == "not" || iname == "xor" ||
     iname == "ldi" || iname == "mov" ||
     iname == "nop" then
    FATAL ("Classical instruction not implemented: " ++ iname) idx
  else if iname == "eq" || iname == "ne" || iname == "lt" ||
          iname == "gt" || iname == "le" || iname == "ge" then
    FATAL ("Classical instruction not implemented: " ++ iname) idx
  else
    FATAL ("Unknown classical operation'" ++ iname ++ "' with'" ++
      toString (iopers_count classical_ins) ++ "' operands!") idx

/-- The characters at which `operator>>` ends a token: the white space of the C
locale. -/
def isspace (ch : Char) : Bool :=
  ch == Char.ofNat 32 || ch == Char.ofNat 9 || ch == Char.ofNat 10 ||
  ch == Char.ofNat 11 || ch == Char.ofNat 12 || ch == Char.ofNat 13

/-- The call `std::replace(kname.begin(), kname.end(), '_', ' ')`. -/
def replaceUnderscore (kname : List Char) : List Char :=
  kname.map fun ch => if ch == '_' then Char.ofNat 32 else ch

/-- The tokens an `istream_iterator<std::string>` reads from a text: the maximal runs
of characters that are not white space. `cur` holds the token being read, reversed. -/
def tokensFrom : List Char → List Char → List (List Char)
  | [], cur => if cur.isEmpty then [] else [cur.reverse]
  | ch :: rest, cur =>
    if isspace ch then
      if cur.isEmpty then tokensFrom rest [] else cur.reverse :: tokensFrom rest []
    else tokensFrom rest (ch :: cur)

/-- The vector `tokens` of `kernelLabel`. -/
def tokens (name : String) : List (List Char) :=
  tokensFrom (replaceUnderscore name.data) []

/-- The function `eqasm_backend_cc::kernelLabel`: `tokens[0]`, which exists only if the
name has a token. -/
def kernelLabel (k : quantum_kernel) : Option String :=
  (tokens k.name).head?.map String.mk

/-- The expression `k.br_condition.operands[i]->id`, defined when the vector has an
element at `i`. -/
def operandId (k : quantum_kernel) (i : Nat) : Option Nat :=
  (k.br_condition.operands.get? i).map creg.id

/-- The comment the prologue writes: `"### Kernel: '" << k.name << "'"`. -/
def kernelComment (k : quantum_kernel) : String :=
  "### Kernel: '" ++ k.name ++ "'"

/-- The function `eqasm_backend_cc::codegen_kernel_prologue`. -/
def codegen_kernel_prologue (k : quantum_kernel) (idx : Nat) : Run :=
  (emit (.comment (kernelComment k)) idx).andThen fun idx =>
    match k.type with
    | .IF_START =>
      match operandId k 0, operandId k 1 with
      | some op0, some op1 => emit (.if_start op0 k.br_condition.operation_name op1) idx
      | _, _ => UB "k.br_condition.operands[i]" idx
    | .ELSE_START =>
      match operandId k 0, operandId k 1 with
      | some op0, some op1 => emit (.else_start op0 k.br_condition.operation_name op1) idx
      | _, _ => UB "k.br_condition.operands[i]" idx
    | .FOR_START =>
      match kernelLabel k with
      | some label => emit (.for_start label k.iterations) idx
      | none => UB "tokens[0]" idx
    | .DO_WHILE_START =>
      match kernelLabel k with
      | some label => emit (.do_while_start label) idx
      | none => UB "tokens[0]" idx
    | .STATIC | .FOR_END | .DO_WHILE_END | .IF_END | .ELSE_END => skip idx
    | .other _ => FATAL "inconsistency detected: unhandled kernel type" idx

/-- The function `eqasm_backend_cc::codegen_kernel_epilogue`. -/
def codegen_kernel_epilogue (k : quantum_kernel) (idx : Nat) : Run :=
  match k.type with
  | .FOR_END =>
    match kernelLabel k with
    | some label => emit (.for_end label) idx
    | none => UB "tokens[0]" idx
  | .DO_WHILE_END =>
    match operandId k 0, operandId k 1 with
    | some op0, some op1 =>
      match kernelLabel k with
      | some label => emit (.do_while_end label op0 k.br_condition.operation_name op1) idx
      | none => UB "tokens[0]" idx
    | _, _ => UB "k.br_condition.operands[i]" idx
  | .IF_END => skip idx
  | .ELSE_END => skip idx
  | .STATIC | .IF_START | .ELSE_START | .FOR_START | .DO_WHILE_START => skip idx
  | .other _ => FATAL "inconsistency detected: unhandled kernel type" idx

/-- The text of a bundle header: `"## Bundle " << bundleIdx << ": start_cycle=" <<
start_cycle << ", duration_in_cycles=" << duration_in_cycles << ":"`. -/
def bundleHeader (bundleIdx start_cycle duration_in_cycles : Nat) : String :=
  "## Bundle " ++ toString bundleIdx ++ ": start_cycle=" ++ toString start_cycle ++
    ", duration_in_cycles=" ++ toString duration_in_cycles ++ ":"

/-- The body of the loop over the instructions of a section in `codegen_bundles`: the
switch on the type of one gate. The last two cases are the `default` case, whose message
streams the integer value of the gate type: 18 for `__prepz_gate__`, its position in the
enumeration of gate.h (which is not among the sources), and `v` for `other v`. -/
def codegen_instr (start_cycle : Nat) (instr : gate) (idx : Nat) : Run :=
  match instr.type with
  | .__nop_gate__ => emit .nop_gate idx
  | .__classical_gate__ =>
    FATAL "Inconsistency detected in bundle contents: classical gate found after first section (which itself was non-classical)" idx
  | .__custom_gate__ =>
    emit (.custom_gate instr.name instr.operands instr.creg_operands instr.angle
      start_cycle instr.duration) idx
  | .__display__ => FATAL "Gate type __display__ not supported" idx
  | .__measure_gate__ => FATAL "Gate type __measure_gate__ not supported" idx
  | .__prepz_gate__ => FATAL ("Unsupported gate type: " ++ toString (18 : Nat)) idx
  | .other v => FATAL ("Unsupported gate type: " ++ toString v) idx

/-- The loop over the instructions of a section in `codegen_bundles`. -/
def codegen_instrs (start_cycle : Nat) : List gate → Nat → Run
  | [], idx => skip idx
  | instr :: rest, idx =>
    (codegen_instr start_cycle instr idx).andThen (codegen_instrs start_cycle rest)

/-- The body of the loop over the sections of a bundle in `codegen_bundles`. The first
gate `*section->begin()` exists only in a section that is not empty. -/
def codegen_section (start_cycle : Nat) (sec : section_t) (idx : Nat) : Run :=
  match sec with
  | [] => UB "*section->begin()" idx
  | firstInstr :: _ =>
    if firstInstr.type = .__classical_gate__ then
      if sec.length ≠ 1 then
        FATAL "Inconsistency detected in bundle contents: classical gate with parallel sections" idx
      else codegen_classical_instruction firstInstr idx
    else codegen_instrs start_cycle sec idx

/-- The loop over the sections of a bundle in `codegen_bundles`. -/
def codegen_sections (start_cycle : Nat) : List section_t → Nat → Run
  | [], idx => skip idx
  | sec :: rest, idx =>
    (codegen_section start_cycle sec idx).andThen (codegen_sections start_cycle rest)

/-- The header of a bundle: `bundle_start` with the text built from `bundleIdx++`. -/
def codegen_bundle_header (bundle : bundle_t) (idx : Nat) : Run :=
  emit (.bundle_start (bundleHeader idx bundle.start_cycle bundle.duration_in_cycles))
    (idx + 1)

/-- The body of the loop over the bundles in `codegen_bundles`, given the value of
`&bundle == &bundles.back()`. -/
def codegen_bundle (isLastBundle : Bool) (bundle : bundle_t) (idx : Nat) : Run :=
  ((codegen_bundle_header bundle idx).andThen
    (codegen_sections bundle.start_cycle bundle.parallel_sections)).andThen
    (emit (.bundle_finish bundle.start_cycle bundle.duration_in_cycles isLastBundle))

/-- The loop over the bundles in `codegen_bundles`: a bundle is the last one when no
bundle follows it. -/
def codegen_bundles_loop : bundles_t → Nat → Run
  | [], idx => skip idx
  | bundle :: rest, idx =>
    (codegen_bundle rest.isEmpty bundle idx).andThen (codegen_bundles_loop rest)

/-- The function `eqasm_backend_cc::codegen_bundles`. -/
def codegen_bundles (bundles : bundles_t) (_platform : quantum_platform) (idx : Nat) : Run :=
  codegen_bundles_loop bundles idx

/-- The function `eqasm_backend_cc::load_hw_settings`, whose body is compiled out. -/
def load_hw_settings (_platform : quantum_platform) (idx : Nat) : Run := skip idx

/-- The assignment `bundleIdx = 0` at the start of `compile`. -/
def reset_bundleIdx (_idx : Nat) : Run := skip 0

/-- The scheduler `cc_light_schedule(ckt, platform, sched_dot, nqubits, ncreg)`, an
external collaborator: a parameter of the compile pipeline. -/
abbrev Scheduler := circuit → quantum_platform → Nat → Nat → bundles_t

/-- The call `codegen.kernel_finish(kernel.name, bundles.back().start_cycle +
bundles.back().duration_in_cycles)`; `bundles.back()` exists only in a sequence that is
not empty. -/
def codegen_kernel_finish (kernel : quantum_kernel) (bundles : bundles_t) (idx : Nat) : Run :=
  match bundles.getLast? with
  | some back => emit (.kernel_finish kernel.name (back.start_cycle + back.duration_in_cycles)) idx
  | none => UB "bundles.back()" idx

/-- The body of the loop over the kernels in `compile`. -/
def compile_kernel (sched : Scheduler) (platform : quantum_platform) (kernel : quantum_kernel)
    (idx : Nat) : Run :=
  ((codegen_kernel_prologue kernel idx).andThen fun idx =>
    let ckt := kernel.c
    if !ckt.isEmpty then
      let creg_count := kernel.creg_count
      let bundles := sched ckt platform platform.qubit_number creg_count
      (((emit (.cc_light_schedule ckt platform platform.qubit_number creg_count) idx).andThen
        (emit .kernel_start)).andThen
        (codegen_bundles bundles platform)).andThen
        (codegen_kernel_finish kernel bundles)
    else skip idx).andThen
    (codegen_kernel_epilogue kernel)

/-- The loop over the kernels in `compile`. -/
def compile_kernels (sched : Scheduler) (platform : quantum_platform) :
    List quantum_kernel → Nat → Run
  | [], idx => skip idx
  | kernel :: rest, idx =>
    (compile_kernel sched platform kernel idx).andThen (compile_kernels sched platform rest)

/-- The end of `compile`: the program is written to a file, and so is the instrument
map when `map_input_file != ""`. -/
def write_files (opts : Options) (prog_name : String) (idx : Nat) : Run :=
  (emit (.write_file (opts.output_dir ++ "/" ++ prog_name ++ ".vq1asm") .getCode) idx).andThen
    fun idx =>
      if opts.backend_cc_map_input_file != "" then
        emit (.write_file (opts.output_dir ++ "/" ++ prog_name ++ ".map") .getMap) idx
      else skip idx

/-- The function `eqasm_backend_cc::compile` for a program of kernels. `idx` is the
value the member `bundleIdx` has when the call starts. -/
def compile (sched : Scheduler) (opts : Options) (prog_name : String)
    (kernels : List quantum_kernel) (platform : quantum_platform) (idx : Nat) : Run :=
  if kernels.length = 0 then
    FATAL "Trying to compile empty kernel" idx
  else
    ((((((load_hw_settings platform idx).andThen
      (emit (.codegen_init platform))).andThen
      reset_bundleIdx).andThen
      (emit (.program_start prog_name))).andThen
      (compile_kernels sched platform kernels)).andThen
      (emit (.program_finish prog_name))).andThen
      (write_files opts prog_name)

/-! ## circuit.h -/

/-- The test `(g->type() == __prepz_gate__) || (g->type() == __measure_gate__)` of
`split_circuit`. -/
def isPrepzOrMeasure (g : gate) : Bool :=
  g.type == .__prepz_gate__ || g.type == .__measure_gate__

/-- The vector `cs` of `split_circuit`. It starts with one block and only grows, so it
always has a last block `cs.back()`: the blocks before the last one, and the last
block. -/
structure Blocks where
  front : List circuit
  back : circuit
  deriving DecidableEq

/-- The body of the loop of `split_circuit`: a prepz or measure gate goes into a new
block of its own, followed by a new empty block; any other gate is appended to the last
block. -/
def split_step (cs : Blocks) (g : gate) : Blocks :=
  if isPrepzOrMeasure g then
    ⟨cs.front ++ [cs.back, [g]], []⟩
  else
    ⟨cs.front, cs.back ++ [g]⟩

/-- The method `circuit::split_circuit`. -/
def split_circuit (c : circuit) : List circuit :=
  let cs := c.foldl split_step ⟨[], []⟩
  cs.front ++ [cs.back]

/-- The method `circuit::contains_measurements`: the loop returns true at the first
gate whose type is `__measure_gate__` or `__prepz_gate__`, and false after the last
gate. -/
def contains_measurements : circuit → Bool
  | [] => false
  | g :: rest =>
    if g.type == .__measure_gate__ then true
    else if g.type == .__prepz_gate__ then true
    else contains_measurements rest

/-! ## Vocabulary of the statements -/

/-- The events that belong to the bundles of a kernel: the scheduler call, the kernel
markers, the bundle markers and the gate instructions. -/
def Event.isBundleRelated : Event → Bool
  | .cc_light_schedule _ _ _ _ => true
  | .kernel_start => true
  | .kernel_finish _ _ => true
  | .bundle_start _ => true
  | .bundle_finish _ _ _ => true
  | .nop_gate => true
  | .custom_gate _ _ _ _ _ _ => true
  | _ => false

/-- The events that put an instruction or a marker into the program: every call on
`codegen` except `init` and `comment`. -/
def Event.isInstruction : Event → Bool
  | .codegen_init _ => false
  | .comment _ => false
  | .cc_light_schedule _ _ _ _ => false
  | .write_file _ _ => false
  | _ => true

/-- The bundles that are followed by another bundle: the loop of `codegen_bundles` with
the last-bundle flag false throughout. -/
def codegen_bundles_nonfinal : bundles_t → Nat → Run
  | [], idx => skip idx
  | bundle :: rest, idx =>
    (codegen_bundle false bundle idx).andThen (codegen_bundles_nonfinal rest)

/-- What `codegen_bundles` has done when it arrives at a section of bundle `b`: the
bundles `pre` before `b`, the header of `b`, and the sections `spre` of `b` before the
section. -/
def run_to_section (pre : bundles_t) (b : bundle_t) (spre : List section_t) (idx : Nat) : Run :=
  ((codegen_bundles_nonfinal pre idx).andThen (codegen_bundle_header b)).andThen
    (codegen_sections b.start_cycle spre)

/-- What `codegen_bundles` has done when it arrives at a gate in the loop over the
instructions of a section: the run to the section, and the gates `gpre` of the section
before the gate. -/
def run_to_gate (pre : bundles_t) (b : bundle_t) (spre : List section_t) (gpre : List gate)
    (idx : Nat) : Run :=
  (run_to_section pre b spre idx).andThen (codegen_instrs b.start_cycle gpre)

/-- The texts of the bundle headers among the events, in the order of emission. -/
def bundleStarts : List Event → List String
  | [] => []
  | .bundle_start cmnt :: rest => cmnt :: bundleStarts rest
  | _ :: rest => bundleStarts rest

/-- The header texts of a sequence of bundles when the first of them gets the index
`idx` and each next one the next index. -/
def headers (idx : Nat) : bundles_t → List String
  | [] => []
  | b :: rest => bundleHeader idx b.start_cycle b.duration_in_cycles :: headers (idx + 1) rest

/-- The bundle sequence `compile` obtains for a kernel: the result of the scheduler for
a kernel with gates, and none for a kernel without gates. -/
def kernelBundles (sched : Scheduler) (platform : quantum_platform) (k : quantum_kernel) :
    bundles_t :=
  if k.c.isEmpty then [] else sched k.c platform platform.qubit_number k.creg_count

/-- The bundle sequences of the kernels of a program, one after the other. -/
def programBundles (sched : Scheduler) (platform : quantum_platform) :
    List quantum_kernel → bundles_t
  | [] => []
  | k :: rest => kernelBundles sched platform k ++ programBundles sched platform rest

/-- The instruction `codegen_bundles` emits for a gate it accepts: `nop_gate` for a nop,
`custom_gate` with the fields of the gate and the start cycle of the bundle otherwise. -/
def gateInstruction (start_cycle : Nat) (g : gate) : Event :=
  if g.type = .__nop_gate__ then .nop_gate
  else .custom_gate g.name g.operands g.creg_operands g.angle start_cycle g.duration

/-- The events of one bundle whose gates are all accepted: the header with the given
index, one instruction per gate in section order and in gate order within a section,
and the trailer with the given last-bundle flag. -/
def bundleEvents (isLastBundle : Bool) (idx : Nat) (b : bundle_t) : List Event :=
  .bundle_start (bundleHeader idx b.start_cycle b.duration_in_cycles) ::
    (b.parallel_sections.flatten.map (gateInstruction b.start_cycle) ++
      [.bundle_finish b.start_cycle b.duration_in_cycles isLastBundle])

/-- The events of a sequence of bundles whose gates are all accepted, the first bundle
with the index `idx`; only the bundle in the final position is flagged as the last. -/
def bundlesEvents (idx : Nat) : bundles_t → List Event
  | [] => []
  | b :: rest => bundleEvents rest.isEmpty idx b ++ bundlesEvents (idx + 1) rest

/-- A bundle sequence in which every section is non-empty and every gate is a nop or a
custom gate. -/
def Supported (bs : bundles_t) : Prop :=
  ∀ b ∈ bs, ∀ sec ∈ b.parallel_sections,
    sec ≠ [] ∧ ∀ g ∈ sec, g.type = .__nop_gate__ ∨ g.type = .__custom_gate__

/-- The gate instructions among the events. -/
def Event.isGate : Event → Bool
  | .nop_gate => true
  | .custom_gate _ _ _ _ _ _ => true
  | _ => false

/-- The bundle trailers among the events. -/
def Event.isBundleFinish : Event → Bool
  | .bundle_finish _ _ _ => true
  | _ => false

/-- The bundle trailers whose last-bundle flag is true. -/
def Event.isLastBundleFinish : Event → Bool
  | .bundle_finish _ _ true => true
  | _ => false

/-- A character that separates the tokens of a kernel name: an underscore or white
space. -/
def isSep (ch : Char) : Bool := ch == '_' || isspace ch

/-- The first maximal run of characters of a name that are neither underscores nor
white space, with the underscores and the white space before it skipped. -/
def firstToken (name : List Char) : List Char :=
  (name.dropWhile isSep).takeWhile fun ch => !isSep ch

/-- The comments among the events. -/
def Event.isComment : Event → Bool
  | .comment _ => true
  | _ => false

/-- The files written among the events. -/
def Event.isWriteFile : Event → Bool
  | .write_file _ _ => true
  | _ => false

/-! ## Sequencing -/

theorem andThen_of_ok (r : Run) (f : Nat → Run) (h : r.status = .ok) :
    r.andThen f = ⟨(f r.bundleIdx).status, (f r.bundleIdx).bundleIdx, r.out ++ (f r.bundleIdx).out⟩ := by
  simp [Run.andThen, h]

theorem andThen_of_not_ok (r : Run) (f : Nat → Run) (h : r.status ≠ .ok) :
    r.andThen f = r := by
  unfold Run.andThen
  split
  · contradiction
  · rfl

@[simp] theorem skip_andThen (idx : Nat) (f : Nat → Run) : (skip idx).andThen f = f idx := by
  simp [Run.andThen, skip]

@[simp] theorem emit_andThen (e : Event) (idx : Nat) (f : Nat → Run) :
    (emit e idx).andThen f = ⟨(f idx).status, (f idx).bundleIdx, e :: (f idx).out⟩ := by
  simp [Run.andThen, emit]

@[simp] theorem FATAL_andThen (msg : String) (idx : Nat) (f : Nat → Run) :
    (FATAL msg idx).andThen f = FATAL msg idx := by
  simp [Run.andThen, FATAL]

@[simp] theorem UB_andThen (what : String) (idx : Nat) (f : Nat → Run) :
    (UB what idx).andThen f = UB what idx := by
  simp [Run.andThen, UB]

@[simp] theorem andThen_skip (r : Run) : r.andThen skip = r := by
  rcases r with ⟨s, i, o⟩
  cases s <;> simp [Run.andThen, skip]

theorem andThen_assoc (r : Run) (f g : Nat → Run) :
    (r.andThen f).andThen g = r.andThen fun i => (f i).andThen g := by
  rcases r with ⟨s, i, o⟩
  cases s
  · simp only [Run.andThen]
    generalize f i = fi
    rcases fi with ⟨s2, i2, o2⟩
    cases s2 <;> simp [Run.andThen]
  · simp [Run.andThen]
  · simp [Run.andThen]

theorem andThen_status_ok (r : Run) (f : Nat → Run) :
    (r.andThen f).status = .ok ↔ r.status = .ok ∧ (f r.bundleIdx).status = .ok := by
  cases hr : r.status with
  | ok => simp [andThen_of_ok r f hr]
  | fatal m => simp [andThen_of_not_ok r f (by simp [hr]), hr]
  | undefined w => simp [andThen_of_not_ok r f (by simp [hr]), hr]

/-- A run that fails on the spot, from the state the run before it left. -/
theorem andThen_fails (r : Run) (f : Nat → Run) (st : Status) (hr : r.status = .ok)
    (hf : f r.bundleIdx = ⟨st, r.bundleIdx, []⟩) :
    r.andThen f = ⟨st, r.bundleIdx, r.out⟩ := by
  rw [andThen_of_ok r f hr, hf]
  simp

/-! ## The classical instruction stub -/

theorem unknown_ne_not_implemented (a b c d : String) :
    "Unknown classical operation'" ++ a ++ b ++ c ++ d ≠
      "Classical instruction not implemented: " ++ a := by
  intro h
  have h2 := congrArg (fun s => s.data.head?) h
  simp [String.data_append] at h2

theorem toInt32_of_lt (n : Nat) (h : n < 2 ^ 31) : toInt32 n = (n : Int) := by
  have h1 : n % 2 ^ 32 = n := Nat.mod_eq_of_lt (by omega)
  unfold toInt32
  rw [h1, if_pos h]

theorem mem_QASM_CLASSICAL_INSTRUCTION_LIST (iname : String) :
    iname ∈ QASM_CLASSICAL_INSTRUCTION_LIST ↔
      ((iname == "add" || iname == "sub" ||
        iname == "and" || iname == "or" || iname == "not" || iname == "xor" ||
        iname == "ldi" || iname == "mov" ||
        iname == "nop") = true ∨
       (iname == "eq" || iname == "ne" || iname == "lt" ||
        iname == "gt" || iname == "le" || iname == "ge") = true) := by
  simp [QASM_CLASSICAL_INSTRUCTION_LIST]
  tauto

/-- C9: for every classical gate `codegen_classical_instruction` fails and emits
nothing. It fails with "Classical instruction not implemented: " followed by the name
exactly when the name is one of the fifteen names of the instruction list, and otherwise
with the "Unknown classical operation" message, which carries the name and the local
`iopers_count`; that local is the number of classical register operands whenever the
number fits the `int` it is stored in. -/
theorem codegen_classical_instruction_fails (g : gate) (idx : Nat) :
    (codegen_classical_instruction g idx).out = [] ∧
    (codegen_classical_instruction g idx).bundleIdx = idx ∧
    ((codegen_classical_instruction g idx).status =
        .fatal ("Classical instruction not implemented: " ++ g.name) ↔
      g.name ∈ QASM_CLASSICAL_INSTRUCTION_LIST) ∧
    (g.name ∉ QASM_CLASSICAL_INSTRUCTION_LIST →
      (codegen_classical_instruction g idx).status =
        .fatal ("Unknown classical operation'" ++ g.name ++ "' with'" ++
          toString (iopers_count g) ++ "' operands!")) ∧
    (g.creg_operands.length < 2 ^ 31 → iopers_count g = (g.creg_operands.length : Int)) := by
  have hmem := mem_QASM_CLASSICAL_INSTRUCTION_LIST g.name
  refine ⟨?_, ?_, ?_, ?_, ?_⟩
  · unfold codegen_classical_instruction
    simp only
    split
    · rfl
    · split <;> rfl
  · unfold codegen_classical_instruction
    simp only
    split
    · rfl
    · split <;> rfl
  · rw [hmem]
    unfold codegen_classical_instruction
    simp only
    split
    · rename_i h
      simp [FATAL, h]
    · rename_i h
      split
      · rename_i h2
        simp [FATAL, h2]
      · rename_i h2
        simp only [FATAL, h, h2, Status.fatal.injEq]
        constructor
        · intro hc
          exact absurd hc (unknown_ne_not_implemented _ _ _ _)
        · intro hc
          rcases hc with hc | hc <;> contradiction
  · intro hn
    rw [hmem, not_or] at hn
    unfold codegen_classical_instruction
    simp only
    rw [if_neg hn.1, if_neg hn.2]
    rfl
  · intro hlt
    exact toInt32_of_lt _ hlt

/-- Witness of C9: a gate named "eq" hits the stub, a gate named "measure_all" with two
operands is reported as unknown with the count 2. -/
theorem codegen_classical_instruction_fails_witness :
    ((codegen_classical_instruction ⟨"eq", [], [0, 1], 0, 1, .__classical_gate__⟩ 7).status =
        .fatal ("Classical instruction not implemented: " ++ "eq") ↔
      "eq" ∈ QASM_CLASSICAL_INSTRUCTION_LIST) ∧
    (codegen_classical_instruction ⟨"measure_all", [], [0, 1], 0, 1, .__classical_gate__⟩ 7).status =
      .fatal ("Unknown classical operation'" ++ "measure_all" ++ "' with'" ++
        toString (iopers_count ⟨"measure_all", [], [0, 1], 0, 1, .__classical_gate__⟩) ++
        "' operands!") ∧
    iopers_count ⟨"measure_all", [], [0, 1], 0, 1, .__classical_gate__⟩ = 2 :=
  ⟨(codegen_classical_instruction_fails ⟨"eq", [], [0, 1], 0, 1, .__classical_gate__⟩ 7).2.2.1,
   (codegen_classical_instruction_fails
      ⟨"measure_all", [], [0, 1], 0, 1, .__classical_gate__⟩ 7).2.2.2.1 (by decide),
   (codegen_classical_instruction_fails
      ⟨"measure_all", [], [0, 1], 0, 1, .__classical_gate__⟩ 7).2.2.2.2 (by decide)⟩

/-! ## The empty program -/

/-- C2: for every program name and platform, `compile` on an empty kernel sequence
fails with "Trying to compile empty kernel" before anything else happens: no call is
made on the code generator, the scheduler or the file writer, and the bundle index is
left as it was. -/
theorem compile_empty_program (sched : Scheduler) (opts : Options) (prog_name : String)
    (platform : quantum_platform) (idx : Nat) :
    compile sched opts prog_name [] platform idx =
      ⟨.fatal "Trying to compile empty kernel", idx, []⟩ := by
  rfl

/-! ## Kernels without gates, and the control flow instructions -/

theorem prologue_bundleIdx (k : quantum_kernel) (idx : Nat) :
    (codegen_kernel_prologue k idx).bundleIdx = idx := by
  unfold codegen_kernel_prologue
  rw [emit_andThen]
  simp only
  split <;> (try split) <;> rfl

theorem epilogue_bundleIdx (k : quantum_kernel) (idx : Nat) :
    (codegen_kernel_epilogue k idx).bundleIdx = idx := by
  unfold codegen_kernel_epilogue
  split <;> (try split) <;> (try split) <;> rfl

theorem prologue_not_bundle_related (k : quantum_kernel) (idx : Nat) :
    ∀ e ∈ (codegen_kernel_prologue k idx).out, e.isBundleRelated = false := by
  unfold codegen_kernel_prologue
  rw [emit_andThen]
  simp only
  split <;> (try split) <;> simp [emit, skip, FATAL, UB, Event.isBundleRelated]

theorem epilogue_not_bundle_related (k : quantum_kernel) (idx : Nat) :
    ∀ e ∈ (codegen_kernel_epilogue k idx).out, e.isBundleRelated = false := by
  unfold codegen_kernel_epilogue
  split <;> (try split) <;> (try split) <;> simp [emit, skip, FATAL, UB, Event.isBundleRelated]

theorem andThen_bundleIdx (r : Run) (f : Nat → Run) (h : ∀ i, (f i).bundleIdx = i) :
    (r.andThen f).bundleIdx = r.bundleIdx := by
  rcases r with ⟨s, i, o⟩
  cases s <;> simp [Run.andThen, h]

theorem andThen_out_forall (p : Event → Prop) (r : Run) (f : Nat → Run)
    (hr : ∀ e ∈ r.out, p e) (hf : ∀ i, ∀ e ∈ (f i).out, p e) :
    ∀ e ∈ (r.andThen f).out, p e := by
  rcases r with ⟨s, i, o⟩
  cases s
  · intro e he
    simp only [Run.andThen, List.mem_append] at he
    rcases he with he | he
    · exact hr e he
    · exact hf i e he
  · simpa [Run.andThen] using hr
  · simpa [Run.andThen] using hr

theorem compile_kernel_of_empty (sched : Scheduler) (platform : quantum_platform)
    (k : quantum_kernel) (idx : Nat) (hk : k.c = []) :
    compile_kernel sched platform k idx =
      (codegen_kernel_prologue k idx).andThen (codegen_kernel_epilogue k) := by
  unfold compile_kernel
  simp [hk]

/-- C3: for every kernel whose gate sequence is empty, what `compile` does for that
kernel is the prologue followed by the epilogue and nothing else: none of its events is
a scheduler call, a kernel marker, a bundle marker or a gate instruction, and the bundle
index is left unchanged. -/
theorem compile_kernel_empty_circuit (sched : Scheduler) (platform : quantum_platform)
    (k : quantum_kernel) (idx : Nat) (hk : k.c = []) :
    compile_kernel sched platform k idx =
        (codegen_kernel_prologue k idx).andThen (codegen_kernel_epilogue k) ∧
    (∀ e ∈ (compile_kernel sched platform k idx).out, e.isBundleRelated = false) ∧
    (compile_kernel sched platform k idx).bundleIdx = idx := by
  rw [compile_kernel_of_empty sched platform k idx hk]
  refine ⟨rfl, ?_, ?_⟩
  · exact andThen_out_forall _ _ _ (prologue_not_bundle_related k idx)
      (fun i => epilogue_not_bundle_related k i)
  · rw [andThen_bundleIdx _ _ (fun i => epilogue_bundleIdx k i), prologue_bundleIdx]

/-- Witness of C3: a `FOR_END` kernel without gates, from bundle index 4; the scheduler
given would return a bundle for every circuit. -/
theorem compile_kernel_empty_circuit_witness :
    compile_kernel (fun _ _ _ _ => [⟨0, 1, []⟩]) ⟨2⟩
        ⟨"sp1_for1_end", .FOR_END, [], 0, 0, ⟨[], ""⟩⟩ 4 =
      (codegen_kernel_prologue ⟨"sp1_for1_end", .FOR_END, [], 0, 0, ⟨[], ""⟩⟩ 4).andThen
        (codegen_kernel_epilogue ⟨"sp1_for1_end", .FOR_END, [], 0, 0, ⟨[], ""⟩⟩) ∧
    (∀ e ∈ (compile_kernel (fun _ _ _ _ => [⟨0, 1, []⟩]) ⟨2⟩
        ⟨"sp1_for1_end", .FOR_END, [], 0, 0, ⟨[], ""⟩⟩ 4).out, e.isBundleRelated = false) ∧
    (compile_kernel (fun _ _ _ _ => [⟨0, 1, []⟩]) ⟨2⟩
        ⟨"sp1_for1_end", .FOR_END, [], 0, 0, ⟨[], ""⟩⟩ 4).bundleIdx = 4 :=
  compile_kernel_empty_circuit (fun _ _ _ _ => [⟨0, 1, []⟩]) ⟨2⟩
    ⟨"sp1_for1_end", .FOR_END, [], 0, 0, ⟨[], ""⟩⟩ 4 rfl

theorem andThen_status_fatal (r : Run) (f : Nat → Run) (msg : String)
    (h : (r.andThen f).status = .fatal msg) :
    r.status = .fatal msg ∨ ∃ i, (f i).status = .fatal msg := by
  rcases r with ⟨s, i, o⟩
  cases s
  · right
    exact ⟨i, by simpa [Run.andThen] using h⟩
  · left
    simpa [Run.andThen] using h
  · simp [Run.andThen] at h

theorem prologue_no_unhandled (k : quantum_kernel) (idx : Nat)
    (hv : ∀ v, k.type ≠ .other v) :
    (codegen_kernel_prologue k idx).status ≠
      .fatal "inconsistency detected: unhandled kernel type" := by
  unfold codegen_kernel_prologue
  rw [emit_andThen]
  simp only
  split <;> (try split) <;> simp_all [emit, skip, UB]

theorem epilogue_no_unhandled (k : quantum_kernel) (idx : Nat)
    (hv : ∀ v, k.type ≠ .other v) :
    (codegen_kernel_epilogue k idx).status ≠
      .fatal "inconsistency detected: unhandled kernel type" := by
  unfold codegen_kernel_epilogue
  split <;> (try split) <;> (try split) <;> simp_all [emit, skip, UB]

/-- C4: for each of the nine kernel types, the prologue followed by the epilogue on a
kernel with an empty body returns with exactly the comment naming the kernel and the
instruction documented for the type: `if_start(op0, opName, op1)` for `IF_START`,
`else_start(op0, opName, op1)` for `ELSE_START`, `for_start(label, iterations)` for
`FOR_START`, `do_while_start(label)` for `DO_WHILE_START`, `for_end(label)` for
`FOR_END`, `do_while_end(label, op0, opName, op1)` for `DO_WHILE_END`, and no
instruction for `STATIC`, `IF_END` and `ELSE_END`; here `op0` and `op1` are the ids of
the first two operands of the branch condition and `label` is the label derived from
the name. For none of the nine types is the "unhandled kernel type" failure reached. -/
theorem kernel_type_instructions (sched : Scheduler) (platform : quantum_platform)
    (k : quantum_kernel) (idx : Nat) (hk : k.c = []) :
    (k.type = .STATIC →
      compile_kernel sched platform k idx = ⟨.ok, idx, [.comment (kernelComment k)]⟩) ∧
    (k.type = .IF_END →
      compile_kernel sched platform k idx = ⟨.ok, idx, [.comment (kernelComment k)]⟩) ∧
    (k.type = .ELSE_END →
      compile_kernel sched platform k idx = ⟨.ok, idx, [.comment (kernelComment k)]⟩) ∧
    (∀ op0 op1, k.type = .IF_START → operandId k 0 = some op0 → operandId k 1 = some op1 →
      compile_kernel sched platform k idx = ⟨.ok, idx,
        [.comment (kernelComment k), .if_start op0 k.br_condition.operation_name op1]⟩) ∧
    (∀ op0 op1, k.type = .ELSE_START → operandId k 0 = some op0 → operandId k 1 = some op1 →
      compile_kernel sched platform k idx = ⟨.ok, idx,
        [.comment (kernelComment k), .else_start op0 k.br_condition.operation_name op1]⟩) ∧
    (∀ label, k.type = .FOR_START → kernelLabel k = some label →
      compile_kernel sched platform k idx = ⟨.ok, idx,
        [.comment (kernelComment k), .for_start label k.iterations]⟩) ∧
    (∀ label, k.type = .DO_WHILE_START → kernelLabel k = some label →
      compile_kernel sched platform k idx = ⟨.ok, idx,
        [.comment (kernelComment k), .do_while_start label]⟩) ∧
    (∀ label, k.type = .FOR_END → kernelLabel k = some label →
      compile_kernel sched platform k idx = ⟨.ok, idx,
        [.comment (kernelComment k), .for_end label]⟩) ∧
    (∀ label op0 op1, k.type = .DO_WHILE_END → kernelLabel k = some label →
      operandId k 0 = some op0 → operandId k 1 = some op1 →
      compile_kernel sched platform k idx = ⟨.ok, idx,
        [.comment (kernelComment k),
         .do_while_end label op0 k.br_condition.operation_name op1]⟩) ∧
    ((∀ v, k.type ≠ .other v) →
      (compile_kernel sched platform k idx).status ≠
        .fatal "inconsistency detected: unhandled kernel type") := by
  rw [compile_kernel_of_empty sched platform k idx hk]
  refine ⟨?_, ?_, ?_, ?_, ?_, ?_, ?_, ?_, ?_, ?_⟩
  · intro ht
    simp [codegen_kernel_prologue, codegen_kernel_epilogue, ht, skip, emit, Run.andThen]
  · intro ht
    simp [codegen_kernel_prologue, codegen_kernel_epilogue, ht, skip, emit, Run.andThen]
  · intro ht
    simp [codegen_kernel_prologue, codegen_kernel_epilogue, ht, skip, emit, Run.andThen]
  · intro op0 op1 ht h0 h1
    simp [codegen_kernel_prologue, codegen_kernel_epilogue, ht, h0, h1, skip, emit,
      Run.andThen]
  · intro op0 op1 ht h0 h1
    simp [codegen_kernel_prologue, codegen_kernel_epilogue, ht, h0, h1, skip, emit,
      Run.andThen]
  · intro label ht hl
    simp [codegen_kernel_prologue, codegen_kernel_epilogue, ht, hl, skip, emit, Run.andThen]
  · intro label ht hl
    simp [codegen_kernel_prologue, codegen_kernel_epilogue, ht, hl, skip, emit, Run.andThen]
  · intro label ht hl
    simp [codegen_kernel_prologue, codegen_kernel_epilogue, ht, hl, skip, emit, Run.andThen]
  · intro label op0 op1 ht hl h0 h1
    simp [codegen_kernel_prologue, codegen_kernel_epilogue, ht, hl, h0, h1, skip, emit,
      Run.andThen]
  · intro hv h
    rcases andThen_status_fatal _ _ _ h with h | ⟨i, h⟩
    · exact prologue_no_unhandled k idx hv h
    · exact epilogue_no_unhandled k i hv h

/-- Witness of C4: the `FOR_START` kernel "sp1_for1_start" with 10 iterations and no
gates gives the comment and `for_start("sp1", 10)`. -/
theorem kernel_type_instructions_witness :
    compile_kernel (fun _ _ _ _ => []) ⟨2⟩
        ⟨"sp1_for1_start", .FOR_START, [], 10, 0, ⟨[], ""⟩⟩ 0 =
      ⟨.ok, 0, [.comment "### Kernel: 'sp1_for1_start'", .for_start "sp1" 10]⟩ :=
  (kernel_type_instructions (fun _ _ _ _ => []) ⟨2⟩
    ⟨"sp1_for1_start", .FOR_START, [], 10, 0, ⟨[], ""⟩⟩ 0 rfl).2.2.2.2.2.1
    "sp1" rfl (by decide)

theorem prologue_if_start (k : quantum_kernel) (idx a b : Nat) (ht : k.type = .IF_START)
    (ha : operandId k 0 = some a) (hb : operandId k 1 = some b) :
    codegen_kernel_prologue k idx =
      ⟨.ok, idx, [.comment (kernelComment k), .if_start a k.br_condition.operation_name b]⟩ := by
  simp [codegen_kernel_prologue, ht, ha, hb, emit, Run.andThen]

/-- C5: two `IF_START` kernels with the same branch condition, operand ids `a` and `b`
and operator `op`, whatever their names, gate sequences and other fields, both get from
`codegen_kernel_prologue` the comment naming the kernel and `if_start(a, op, b)`, with
the three values unmodified and in that order. -/
theorem if_start_carries_condition (k1 k2 : quantum_kernel) (idx1 idx2 a b : Nat)
    (op : String) (h1 : k1.type = .IF_START) (h2 : k2.type = .IF_START)
    (hc : k1.br_condition = k2.br_condition)
    (ha : operandId k1 0 = some a) (hb : operandId k1 1 = some b)
    (hop : k1.br_condition.operation_name = op) :
    codegen_kernel_prologue k1 idx1 =
        ⟨.ok, idx1, [.comment (kernelComment k1), .if_start a op b]⟩ ∧
    codegen_kernel_prologue k2 idx2 =
        ⟨.ok, idx2, [.comment (kernelComment k2), .if_start a op b]⟩ := by
  have ha2 : operandId k2 0 = some a := by
    simpa [operandId, hc] using ha
  have hb2 : operandId k2 1 = some b := by
    simpa [operandId, hc] using hb
  constructor
  · rw [prologue_if_start k1 idx1 a b h1 ha hb, hop]
  · rw [prologue_if_start k2 idx2 a b h2 ha2 hb2, ← hc, hop]

/-- Witness of C5: the branch condition (3, "eq", 5) on a kernel without gates and on a
kernel with a custom gate and a measurement. -/
theorem if_start_carries_condition_witness :
    codegen_kernel_prologue ⟨"k_if", .IF_START, [], 0, 6, ⟨[⟨3⟩, ⟨5⟩], "eq"⟩⟩ 0 =
        ⟨.ok, 0, [.comment (kernelComment ⟨"k_if", .IF_START, [], 0, 6, ⟨[⟨3⟩, ⟨5⟩], "eq"⟩⟩),
          .if_start 3 "eq" 5]⟩ ∧
    codegen_kernel_prologue ⟨"other_if", .IF_START,
          [⟨"x", [0], [], 0, 1, .__custom_gate__⟩, ⟨"measure", [0], [], 0, 15, .__measure_gate__⟩],
          0, 6, ⟨[⟨3⟩, ⟨5⟩], "eq"⟩⟩ 9 =
        ⟨.ok, 9, [.comment (kernelComment ⟨"other_if", .IF_START,
          [⟨"x", [0], [], 0, 1, .__custom_gate__⟩, ⟨"measure", [0], [], 0, 15, .__measure_gate__⟩],
          0, 6, ⟨[⟨3⟩, ⟨5⟩], "eq"⟩⟩),
          .if_start 3 "eq" 5]⟩ :=
  if_start_carries_condition ⟨"k_if", .IF_START, [], 0, 6, ⟨[⟨3⟩, ⟨5⟩], "eq"⟩⟩
    ⟨"other_if", .IF_START,
      [⟨"x", [0], [], 0, 1, .__custom_gate__⟩, ⟨"measure", [0], [], 0, 15, .__measure_gate__⟩],
      0, 6, ⟨[⟨3⟩, ⟨5⟩], "eq"⟩⟩ 0 9 3 5 "eq" rfl rfl rfl rfl rfl rfl

/-! ## The round trip of a small program -/

/-- C1: the program "bell" with one `STATIC` kernel holding two custom gates, which the
scheduler turns into one bundle with two parallel sections of one gate each, compiles
successfully. The calls made are, in order: `init`, the program header, the comment
naming the kernel, the scheduler call, `kernel_start`, the bundle header with index 0
and the start cycle and duration of the bundle, `custom_gate` for the first gate,
`custom_gate` for the second gate, `bundle_finish` with the last-bundle flag true,
`kernel_finish` with end cycle start cycle + duration, the program footer, and the
writing of the files. The instructions and markers among them are exactly the eight the
scenario lists. -/
theorem compile_bell (sched : Scheduler) (opts : Options) (platform : quantum_platform)
    (k : quantum_kernel) (g1 g2 : gate) (sc d idx : Nat)
    (hty : k.type = .STATIC) (hc : k.c = [g1, g2])
    (hg1 : g1.type = .__custom_gate__) (hg2 : g2.type = .__custom_gate__)
    (hs : sched k.c platform platform.qubit_number k.creg_count = [⟨sc, d, [[g1], [g2]]⟩]) :
    compile sched opts "bell" [k] platform idx =
      ⟨.ok, 1,
        [.codegen_init platform,
         .program_start "bell",
         .comment (kernelComment k),
         .cc_light_schedule k.c platform platform.qubit_number k.creg_count,
         .kernel_start,
         .bundle_start (bundleHeader 0 sc d),
         .custom_gate g1.name g1.operands g1.creg_operands g1.angle sc g1.duration,
         .custom_gate g2.name g2.operands g2.creg_operands g2.angle sc g2.duration,
         .bundle_finish sc d true,
         .kernel_finish k.name (sc + d),
         .program_finish "bell"] ++ (write_files opts "bell" 1).out⟩ ∧
    (compile sched opts "bell" [k] platform idx).out.filter Event.isInstruction =
      [.program_start "bell",
       .kernel_start,
       .bundle_start (bundleHeader 0 sc d),
       .custom_gate g1.name g1.operands g1.creg_operands g1.angle sc g1.duration,
       .custom_gate g2.name g2.operands g2.creg_operands g2.angle sc g2.duration,
       .bundle_finish sc d true,
       .kernel_finish k.name (sc + d),
       .program_finish "bell"] := by
  have hw : (write_files opts "bell" 1).status = .ok ∧
      (write_files opts "bell" 1).bundleIdx = 1 ∧
      (write_files opts "bell" 1).out.filter Event.isInstruction = [] := by
    unfold write_files
    rw [emit_andThen]
    simp only
    split <;> simp [emit, skip, Event.isInstruction]
  have hmain : compile sched opts "bell" [k] platform idx =
      ⟨.ok, 1,
        [.codegen_init platform,
         .program_start "bell",
         .comment (kernelComment k),
         .cc_light_schedule k.c platform platform.qubit_number k.creg_count,
         .kernel_start,
         .bundle_start (bundleHeader 0 sc d),
         .custom_gate g1.name g1.operands g1.creg_operands g1.angle sc g1.duration,
         .custom_gate g2.name g2.operands g2.creg_operands g2.angle sc g2.duration,
         .bundle_finish sc d true,
         .kernel_finish k.name (sc + d),
         .program_finish "bell"] ++ (write_files opts "bell" 1).out⟩ := by
    rw [hc] at hs
    simp [compile, compile_kernels, compile_kernel, codegen_kernel_prologue,
      codegen_kernel_epilogue, hty, hs, codegen_bundles, codegen_bundles_loop, codegen_bundle,
      codegen_bundle_header, codegen_sections, codegen_section, codegen_instrs, codegen_instr,
      hg1, hg2, codegen_kernel_finish, load_hw_settings, reset_bundleIdx,
      hc, emit, skip, Run.andThen, hw.1, hw.2.1]
  refine ⟨hmain, ?_⟩
  rw [hmain]
  show List.filter Event.isInstruction (_ ++ _) = _
  rw [List.filter_append, hw.2.2]
  rfl

/-- Witness of C1: the kernel holds the custom gates "h" and "cnot", and the scheduler
answers with one bundle at cycle 5 of duration 2. -/
theorem compile_bell_witness :
    compile (fun _ _ _ _ =>
        [⟨5, 2, [[⟨"h", [0], [], 0, 1, .__custom_gate__⟩],
                 [⟨"cnot", [0, 1], [], 0, 2, .__custom_gate__⟩]]⟩])
      ⟨"out", ""⟩ "bell"
      [⟨"bell_kernel", .STATIC,
        [⟨"h", [0], [], 0, 1, .__custom_gate__⟩, ⟨"cnot", [0, 1], [], 0, 2, .__custom_gate__⟩],
        0, 0, ⟨[], ""⟩⟩]
      ⟨2⟩ 0 =
    ⟨.ok, 1,
      [.codegen_init ⟨2⟩,
       .program_start "bell",
       .comment "### Kernel: 'bell_kernel'",
       .cc_light_schedule
         [⟨"h", [0], [], 0, 1, .__custom_gate__⟩, ⟨"cnot", [0, 1], [], 0, 2, .__custom_gate__⟩]
         ⟨2⟩ 2 0,
       .kernel_start,
       .bundle_start "## Bundle 0: start_cycle=5, duration_in_cycles=2:",
       .custom_gate "h" [0] [] 0 5 1,
       .custom_gate "cnot" [0, 1] [] 0 5 2,
       .bundle_finish 5 2 true,
       .kernel_finish "bell_kernel" 7,
       .program_finish "bell",
       .write_file "out/bell.vq1asm" .getCode]⟩ :=
  (compile_bell (fun _ _ _ _ =>
        [⟨5, 2, [[⟨"h", [0], [], 0, 1, .__custom_gate__⟩],
                 [⟨"cnot", [0, 1], [], 0, 2, .__custom_gate__⟩]]⟩])
      ⟨"out", ""⟩ ⟨2⟩
      ⟨"bell_kernel", .STATIC,
        [⟨"h", [0], [], 0, 1, .__custom_gate__⟩, ⟨"cnot", [0, 1], [], 0, 2, .__custom_gate__⟩],
        0, 0, ⟨[], ""⟩⟩
      ⟨"h", [0], [], 0, 1, .__custom_gate__⟩ ⟨"cnot", [0, 1], [], 0, 2, .__custom_gate__⟩
      5 2 0 rfl rfl rfl rfl rfl).1

/-! ## Where a run over bundles stops -/

theorem codegen_instrs_append (sc : Nat) (a b : List gate) (idx : Nat) :
    codegen_instrs sc (a ++ b) idx =
      (codegen_instrs sc a idx).andThen (codegen_instrs sc b) := by
  induction a generalizing idx with
  | nil => simp [codegen_instrs]
  | cons g rest ih =>
    simp only [List.cons_append, codegen_instrs]
    rw [andThen_assoc]
    congr 1
    funext i
    exact ih i

theorem codegen_sections_append (sc : Nat) (a b : List section_t) (idx : Nat) :
    codegen_sections sc (a ++ b) idx =
      (codegen_sections sc a idx).andThen (codegen_sections sc b) := by
  induction a generalizing idx with
  | nil => simp [codegen_sections]
  | cons g rest ih =>
    simp only [List.cons_append, codegen_sections]
    rw [andThen_assoc]
    congr 1
    funext i
    exact ih i

theorem codegen_bundles_loop_append (pre : bundles_t) (b : bundle_t) (post : bundles_t)
    (idx : Nat) :
    codegen_bundles_loop (pre ++ b :: post) idx =
      (codegen_bundles_nonfinal pre idx).andThen (codegen_bundles_loop (b :: post)) := by
  induction pre generalizing idx with
  | nil => simp [codegen_bundles_nonfinal]
  | cons p rest ih =>
    have he : (rest ++ b :: post).isEmpty = false := by
      cases rest <;> rfl
    show codegen_bundles_loop (p :: (rest ++ b :: post)) idx = _
    rw [codegen_bundles_loop, codegen_bundles_nonfinal, andThen_assoc, he]
    congr 1
    funext i
    exact ih i

/-- The run of `codegen_bundles` cut at a section of one of its bundles: the run to the
section, the section, and what follows it. -/
theorem codegen_bundles_at_section (pre post : bundles_t) (b : bundle_t)
    (spre spost : List section_t) (sec : section_t) (platform : quantum_platform) (idx : Nat)
    (hb : b.parallel_sections = spre ++ sec :: spost) :
    codegen_bundles (pre ++ b :: post) platform idx =
      ((run_to_section pre b spre idx).andThen (codegen_section b.start_cycle sec)).andThen
        fun i => ((codegen_sections b.start_cycle spost i).andThen
          (emit (.bundle_finish b.start_cycle b.duration_in_cycles post.isEmpty))).andThen
          (codegen_bundles_loop post) := by
  unfold codegen_bundles run_to_section
  rw [codegen_bundles_loop_append]
  simp only [codegen_bundles_loop, codegen_bundle, hb, codegen_sections_append,
    codegen_sections, andThen_assoc]

/-- A section on which the code fails ends the run of `codegen_bundles` there. -/
theorem codegen_bundles_stops_at_section (pre post : bundles_t) (b : bundle_t)
    (spre spost : List section_t) (sec : section_t) (platform : quantum_platform) (idx : Nat)
    (hb : b.parallel_sections = spre ++ sec :: spost)
    (hfail : ∀ i, (codegen_section b.start_cycle sec i).status ≠ .ok) :
    codegen_bundles (pre ++ b :: post) platform idx =
      (run_to_section pre b spre idx).andThen (codegen_section b.start_cycle sec) := by
  rw [codegen_bundles_at_section pre post b spre spost sec platform idx hb]
  apply andThen_of_not_ok
  intro h
  rw [andThen_status_ok] at h
  exact hfail _ h.2

/-! ## Sections and the gates in them -/

theorem codegen_instr_of_classical (sc : Nat) (g : gate) (idx : Nat)
    (hg : g.type = .__classical_gate__) :
    codegen_instr sc g idx =
      ⟨.fatal "Inconsistency detected in bundle contents: classical gate found after first section (which itself was non-classical)",
        idx, []⟩ := by
  simp [codegen_instr, hg, FATAL]

theorem codegen_instr_of_measure (sc : Nat) (g : gate) (idx : Nat)
    (hg : g.type = .__measure_gate__) :
    codegen_instr sc g idx = ⟨.fatal "Gate type __measure_gate__ not supported", idx, []⟩ := by
  simp [codegen_instr, hg, FATAL]

theorem codegen_instr_of_display (sc : Nat) (g : gate) (idx : Nat)
    (hg : g.type = .__display__) :
    codegen_instr sc g idx = ⟨.fatal "Gate type __display__ not supported", idx, []⟩ := by
  simp [codegen_instr, hg, FATAL]

theorem codegen_instr_of_prepz (sc : Nat) (g : gate) (idx : Nat)
    (hg : g.type = .__prepz_gate__) :
    codegen_instr sc g idx = ⟨.fatal "Unsupported gate type: 18", idx, []⟩ := by
  have h18 : "Unsupported gate type: " ++ toString (18 : Nat) = "Unsupported gate type: 18" := by
    decide
  simp only [codegen_instr, hg, FATAL, h18]

theorem codegen_instr_of_other (sc : Nat) (g : gate) (idx v : Nat)
    (hg : g.type = .other v) :
    codegen_instr sc g idx = ⟨.fatal ("Unsupported gate type: " ++ toString v), idx, []⟩ := by
  simp [codegen_instr, hg, FATAL]

/-- The switch on the gate type returns exactly for `__nop_gate__` and
`__custom_gate__`, and throws for every other type. -/
theorem codegen_instr_cases (sc : Nat) (g : gate) (idx : Nat) :
    ((g.type = .__nop_gate__ ∨ g.type = .__custom_gate__) ∧
        (codegen_instr sc g idx).status = .ok) ∨
    (g.type ≠ .__nop_gate__ ∧ g.type ≠ .__custom_gate__ ∧
        ∃ msg, codegen_instr sc g idx = ⟨.fatal msg, idx, []⟩) := by
  cases h : g.type <;> simp [codegen_instr, h, FATAL, emit]

theorem codegen_instrs_ok_of_quantum (sc : Nat) (q : List gate) (idx : Nat)
    (hq : ∀ g ∈ q, g.type = .__nop_gate__ ∨ g.type = .__custom_gate__) :
    (codegen_instrs sc q idx).status = .ok := by
  induction q generalizing idx with
  | nil => rfl
  | cons g rest ih =>
    rw [codegen_instrs, andThen_status_ok]
    constructor
    · rcases codegen_instr_cases sc g idx with h | h
      · exact h.2
      · rcases hq g (List.mem_cons_self _ _) with h2 | h2
        · exact absurd h2 h.1
        · exact absurd h2 h.2.1
    · exact ih _ (fun x hx => hq x (List.mem_cons_of_mem _ hx))

theorem codegen_instrs_ok_types (sc : Nat) (l : List gate) (idx : Nat)
    (h : (codegen_instrs sc l idx).status = .ok) :
    ∀ g ∈ l, g.type = .__nop_gate__ ∨ g.type = .__custom_gate__ := by
  induction l generalizing idx with
  | nil => simp
  | cons x rest ih =>
    rw [codegen_instrs, andThen_status_ok] at h
    intro g hg
    rcases List.mem_cons.mp hg with rfl | hg
    · rcases codegen_instr_cases sc g idx with h2 | h2
      · exact h2.1
      · obtain ⟨msg, hm⟩ := h2.2.2
        rw [hm] at h
        simp at h
    · exact ih _ h.2 g hg

/-- A list of gates that holds a classical gate makes the loop over the instructions
throw: at the classical gate, or at an unsupported gate before it. -/
theorem codegen_instrs_classical_fatal (sc : Nat) (l : List gate) (idx : Nat)
    (hc : ∃ g ∈ l, g.type = .__classical_gate__) :
    ∃ msg, (codegen_instrs sc l idx).status = .fatal msg := by
  induction l generalizing idx with
  | nil => simp at hc
  | cons x rest ih =>
    rw [codegen_instrs]
    rcases codegen_instr_cases sc x idx with h | h
    · have hrest : ∃ g ∈ rest, g.type = .__classical_gate__ := by
        obtain ⟨g, hg, hgt⟩ := hc
        rcases List.mem_cons.mp hg with rfl | hg
        · rcases h.1 with h1 | h1 <;> simp [h1] at hgt
        · exact ⟨g, hg, hgt⟩
      obtain ⟨msg, hm⟩ := ih (codegen_instr sc x idx).bundleIdx hrest
      exact ⟨msg, by rw [andThen_of_ok _ _ h.2]; exact hm⟩
    · obtain ⟨msg, hm⟩ := h.2.2
      exact ⟨msg, by rw [hm]; rfl⟩

theorem codegen_section_of_quantum_head (sc : Nat) (x : gate) (rest : List gate) (idx : Nat)
    (hx : x.type ≠ .__classical_gate__) :
    codegen_section sc (x :: rest) idx = codegen_instrs sc (x :: rest) idx := by
  simp [codegen_section, hx]

theorem codegen_section_classical_many (sc : Nat) (g g2 : gate) (rest : List gate) (idx : Nat)
    (hg : g.type = .__classical_gate__) :
    codegen_section sc (g :: g2 :: rest) idx =
      ⟨.fatal "Inconsistency detected in bundle contents: classical gate with parallel sections",
        idx, []⟩ := by
  simp [codegen_section, hg, FATAL]

theorem codegen_classical_instruction_fatal (g : gate) (idx : Nat) :
    ∃ msg, codegen_classical_instruction g idx = ⟨.fatal msg, idx, []⟩ := by
  unfold codegen_classical_instruction
  simp only
  split
  · exact ⟨_, rfl⟩
  · split <;> exact ⟨_, rfl⟩

/-- A section that holds a classical gate and is not of size 1 is never compiled
successfully. -/
theorem codegen_section_not_ok (sc : Nat) (sec : section_t) (idx : Nat)
    (hc : ∃ g ∈ sec, g.type = .__classical_gate__) (hlen : sec.length ≠ 1) :
    (codegen_section sc sec idx).status ≠ .ok := by
  cases sec with
  | nil => simp at hc
  | cons x rest =>
    by_cases hx : x.type = .__classical_gate__
    · cases rest with
      | nil => simp at hlen
      | cons y rest2 =>
        rw [codegen_section_classical_many sc x y rest2 idx hx]
        simp
    · rw [codegen_section_of_quantum_head sc x rest idx hx]
      obtain ⟨msg, hm⟩ := codegen_instrs_classical_fatal sc (x :: rest) idx hc
      rw [hm]
      simp

/-- A section that holds a classical gate always makes the code throw. -/
theorem codegen_section_classical_fatal (sc : Nat) (sec : section_t) (idx : Nat)
    (hc : ∃ g ∈ sec, g.type = .__classical_gate__) :
    ∃ msg, (codegen_section sc sec idx).status = .fatal msg := by
  cases sec with
  | nil => simp at hc
  | cons x rest =>
    by_cases hx : x.type = .__classical_gate__
    · cases rest with
      | nil =>
        obtain ⟨msg, hm⟩ := codegen_classical_instruction_fatal x idx
        exact ⟨msg, by simp [codegen_section, hx, hm]⟩
      | cons y rest2 =>
        rw [codegen_section_classical_many sc x y rest2 idx hx]
        exact ⟨_, rfl⟩
    · rw [codegen_section_of_quantum_head sc x rest idx hx]
      exact codegen_instrs_classical_fatal sc (x :: rest) idx hc

/-- C6: take a parallel section of a bundle handed to `codegen_bundles`. If its first
gate is classical and it holds more than one gate, then `codegen_bundles`, once it has
come to the section, throws "Inconsistency detected in bundle contents: classical gate
with parallel sections", and what has been emitted is what was emitted before the
section: no gate of the section is dispatched. And a section that holds a classical gate
is compiled successfully only if its size is exactly 1: with any other size the run of
`codegen_bundles` does not return normally. -/
theorem classical_section_single (pre post : bundles_t) (b : bundle_t)
    (spre spost : List section_t) (sec : section_t) (platform : quantum_platform) (idx : Nat)
    (hb : b.parallel_sections = spre ++ sec :: spost) :
    (∀ g g2 rest, sec = g :: g2 :: rest → g.type = .__classical_gate__ →
      (run_to_section pre b spre idx).status = .ok →
      codegen_bundles (pre ++ b :: post) platform idx =
        ⟨.fatal "Inconsistency detected in bundle contents: classical gate with parallel sections",
          (run_to_section pre b spre idx).bundleIdx, (run_to_section pre b spre idx).out⟩) ∧
    ((∃ g ∈ sec, g.type = .__classical_gate__) → sec.length ≠ 1 →
      (codegen_bundles (pre ++ b :: post) platform idx).status ≠ .ok) := by
  constructor
  · intro g g2 rest hsec hg hreach
    subst hsec
    rw [codegen_bundles_stops_at_section pre post b spre spost _ platform idx hb
      (fun i => by rw [codegen_section_classical_many _ g g2 rest i hg]; simp)]
    exact andThen_fails _ _ _ hreach (codegen_section_classical_many _ g g2 rest _ hg)
  · intro hc hlen h
    rw [codegen_bundles_at_section pre post b spre spost sec platform idx hb,
      andThen_status_ok, andThen_status_ok] at h
    exact codegen_section_not_ok _ sec _ hc hlen h.1.2

/-- Witness of C6: one bundle whose second section holds the classical gate "add"
followed by the custom gate "x"; the first section, with the custom gate "y", has been
emitted when the run stops. -/
theorem classical_section_single_witness :
    codegen_bundles
        [⟨4, 1, [[⟨"y", [1], [], 0, 1, .__custom_gate__⟩],
                 [⟨"add", [], [0, 1, 2], 0, 1, .__classical_gate__⟩,
                  ⟨"x", [0], [], 0, 1, .__custom_gate__⟩]]⟩] ⟨2⟩ 0 =
      ⟨.fatal "Inconsistency detected in bundle contents: classical gate with parallel sections",
        1, [.bundle_start "## Bundle 0: start_cycle=4, duration_in_cycles=1:",
            .custom_gate "y" [1] [] 0 4 1]⟩ ∧
    (codegen_bundles
        [⟨4, 1, [[⟨"y", [1], [], 0, 1, .__custom_gate__⟩],
                 [⟨"add", [], [0, 1, 2], 0, 1, .__classical_gate__⟩,
                  ⟨"x", [0], [], 0, 1, .__custom_gate__⟩]]⟩] ⟨2⟩ 0).status ≠ .ok :=
  ⟨(classical_section_single [] []
      ⟨4, 1, [[⟨"y", [1], [], 0, 1, .__custom_gate__⟩],
              [⟨"add", [], [0, 1, 2], 0, 1, .__classical_gate__⟩,
               ⟨"x", [0], [], 0, 1, .__custom_gate__⟩]]⟩
      [[⟨"y", [1], [], 0, 1, .__custom_gate__⟩]] []
      [⟨"add", [], [0, 1, 2], 0, 1, .__classical_gate__⟩, ⟨"x", [0], [], 0, 1, .__custom_gate__⟩]
      ⟨2⟩ 0 rfl).1 _ _ _ rfl rfl (by decide),
   (classical_section_single [] []
      ⟨4, 1, [[⟨"y", [1], [], 0, 1, .__custom_gate__⟩],
              [⟨"add", [], [0, 1, 2], 0, 1, .__classical_gate__⟩,
               ⟨"x", [0], [], 0, 1, .__custom_gate__⟩]]⟩
      [[⟨"y", [1], [], 0, 1, .__custom_gate__⟩]] []
      [⟨"add", [], [0, 1, 2], 0, 1, .__classical_gate__⟩, ⟨"x", [0], [], 0, 1, .__custom_gate__⟩]
      ⟨2⟩ 0 rfl).2 ⟨_, List.mem_cons_self _ _, rfl⟩ (by decide)⟩

theorem codegen_instrs_stops (sc : Nat) (g : gate) (rest : List gate) (idx : Nat) (msg : String)
    (hg : codegen_instr sc g idx = ⟨.fatal msg, idx, []⟩) :
    codegen_instrs sc (g :: rest) idx = ⟨.fatal msg, idx, []⟩ := by
  rw [codegen_instrs, hg]
  rfl

/-- A gate on which the switch throws ends the run of `codegen_bundles` there, with what
had been emitted when the gate was reached. -/
theorem codegen_bundles_stops_at_gate (pre post : bundles_t) (b : bundle_t)
    (spre spost : List section_t) (gpre gpost : List gate) (g : gate)
    (platform : quantum_platform) (idx : Nat) (msg : String)
    (hb : b.parallel_sections = spre ++ (gpre ++ g :: gpost) :: spost)
    (hreach : (run_to_gate pre b spre gpre idx).status = .ok)
    (hg : ∀ i, codegen_instr b.start_cycle g i = ⟨.fatal msg, i, []⟩)
    (hgc : gpre = [] → g.type ≠ .__classical_gate__) :
    codegen_bundles (pre ++ b :: post) platform idx =
      ⟨.fatal msg, (run_to_gate pre b spre gpre idx).bundleIdx,
        (run_to_gate pre b spre gpre idx).out⟩ := by
  have hreach2 := hreach
  unfold run_to_gate at hreach2
  rw [andThen_status_ok] at hreach2
  have hsec : ∀ i, codegen_section b.start_cycle (gpre ++ g :: gpost) i =
      (codegen_instrs b.start_cycle gpre i).andThen
        (codegen_instrs b.start_cycle (g :: gpost)) := by
    intro i
    rw [← codegen_instrs_append]
    cases gpre with
    | nil => exact codegen_section_of_quantum_head _ g gpost i (hgc rfl)
    | cons x rest =>
      apply codegen_section_of_quantum_head
      intro hx
      rcases codegen_instrs_ok_types _ _ _ hreach2.2 x (List.mem_cons_self _ _) with h | h <;>
        simp [h] at hx
  have hfail : ∀ i, (codegen_section b.start_cycle (gpre ++ g :: gpost) i).status ≠ .ok := by
    intro i h
    rw [hsec, andThen_status_ok, codegen_instrs_stops _ g gpost _ msg (hg _)] at h
    simp at h
  rw [codegen_bundles_stops_at_section pre post b spre spost _ platform idx hb hfail]
  have hfun : codegen_section b.start_cycle (gpre ++ g :: gpost) =
      fun i => (codegen_instrs b.start_cycle gpre i).andThen
        (codegen_instrs b.start_cycle (g :: gpost)) := funext hsec
  rw [hfun, ← andThen_assoc]
  exact andThen_fails _ _ _ hreach (codegen_instrs_stops _ g gpost _ msg (hg _))

/-- Counterexample to C7: a section that holds a measurement followed by a classical
gate makes `codegen_bundles` throw the unsupported-gate error of the measurement, which
is neither of the two inconsistency errors. -/
theorem classical_after_measure_counterexample :
    (codegen_bundles
        [⟨0, 1, [[⟨"measure", [0], [], 0, 1, .__measure_gate__⟩,
                  ⟨"add", [], [0, 1, 2], 0, 1, .__classical_gate__⟩]]⟩] ⟨2⟩ 0).status =
      .fatal "Gate type __measure_gate__ not supported" ∧
    (codegen_bundles
        [⟨0, 1, [[⟨"measure", [0], [], 0, 1, .__measure_gate__⟩,
                  ⟨"add", [], [0, 1, 2], 0, 1, .__classical_gate__⟩]]⟩] ⟨2⟩ 0).status ≠
      .fatal "Inconsistency detected in bundle contents: classical gate with parallel sections" ∧
    (codegen_bundles
        [⟨0, 1, [[⟨"measure", [0], [], 0, 1, .__measure_gate__⟩,
                  ⟨"add", [], [0, 1, 2], 0, 1, .__classical_gate__⟩]]⟩] ⟨2⟩ 0).status ≠
      .fatal "Inconsistency detected in bundle contents: classical gate found after first section (which itself was non-classical)" := by
  decide

/-- C7, amended: take a parallel section that holds a classical gate together with at
least one other gate, and let `codegen_bundles` come to it. The run then throws, and
the gates are dispatched in order. When the first gate is classical the message is
"classical gate with parallel sections" and no gate of the section is dispatched.
Otherwise the instructions of the nop and custom gates that stand before the first
other gate are emitted, and the message is that of this gate: "classical gate found
after first section" when it is a classical gate, "Gate type __measure_gate__ not
supported" for a measurement, "Gate type __display__ not supported" for a display, and
"Unsupported gate type: " with the integer value of the type for any other type, 18 for
a prepz gate. -/
theorem classical_gate_with_others (pre post : bundles_t) (b : bundle_t)
    (spre spost : List section_t) (sec : section_t) (platform : quantum_platform) (idx : Nat)
    (hb : b.parallel_sections = spre ++ sec :: spost)
    (hreach : (run_to_section pre b spre idx).status = .ok) :
    (∀ g g2 rest, sec = g :: g2 :: rest → g.type = .__classical_gate__ →
      codegen_bundles (pre ++ b :: post) platform idx =
        ⟨.fatal "Inconsistency detected in bundle contents: classical gate with parallel sections",
          (run_to_section pre b spre idx).bundleIdx, (run_to_section pre b spre idx).out⟩) ∧
    (∀ q c rest, sec = q ++ c :: rest → q ≠ [] →
      (∀ g ∈ q, g.type = .__nop_gate__ ∨ g.type = .__custom_gate__) →
      c.type = .__classical_gate__ →
      codegen_bundles (pre ++ b :: post) platform idx =
        ⟨.fatal "Inconsistency detected in bundle contents: classical gate found after first section (which itself was non-classical)",
          (run_to_gate pre b spre q idx).bundleIdx, (run_to_gate pre b spre q idx).out⟩) ∧
    ((∃ g ∈ sec, g.type = .__classical_gate__) → 2 ≤ sec.length →
      ∃ msg, (codegen_bundles (pre ++ b :: post) platform idx).status = .fatal msg) ∧
    (∀ q u rest, sec = q ++ u :: rest →
      (∀ g ∈ q, g.type = .__nop_gate__ ∨ g.type = .__custom_gate__) →
      (u.type = .__measure_gate__ →
        codegen_bundles (pre ++ b :: post) platform idx =
          ⟨.fatal "Gate type __measure_gate__ not supported",
            (run_to_gate pre b spre q idx).bundleIdx, (run_to_gate pre b spre q idx).out⟩) ∧
      (u.type = .__display__ →
        codegen_bundles (pre ++ b :: post) platform idx =
          ⟨.fatal "Gate type __display__ not supported",
            (run_to_gate pre b spre q idx).bundleIdx, (run_to_gate pre b spre q idx).out⟩) ∧
      (u.type = .__prepz_gate__ →
        codegen_bundles (pre ++ b :: post) platform idx =
          ⟨.fatal "Unsupported gate type: 18",
            (run_to_gate pre b spre q idx).bundleIdx, (run_to_gate pre b spre q idx).out⟩) ∧
      (∀ v, u.type = .other v →
        codegen_bundles (pre ++ b :: post) platform idx =
          ⟨.fatal ("Unsupported gate type: " ++ toString v),
            (run_to_gate pre b spre q idx).bundleIdx, (run_to_gate pre b spre q idx).out⟩)) := by
  refine ⟨?_, ?_, ?_, ?_⟩
  · intro g g2 rest hsec hg
    subst hsec
    rw [codegen_bundles_stops_at_section pre post b spre spost _ platform idx hb
      (fun i => by rw [codegen_section_classical_many _ g g2 rest i hg]; simp)]
    exact andThen_fails _ _ _ hreach (codegen_section_classical_many _ g g2 rest _ hg)
  · intro q c rest hsec hq hqt hc
    subst hsec
    have hgate : (run_to_gate pre b spre q idx).status = .ok := by
      unfold run_to_gate
      rw [andThen_status_ok]
      exact ⟨hreach, codegen_instrs_ok_of_quantum _ q _ hqt⟩
    exact codegen_bundles_stops_at_gate pre post b spre spost q rest c platform idx _ hb hgate
      (fun i => codegen_instr_of_classical _ c i hc) (fun h => absurd h hq)
  · intro hc hlen
    have hne : sec.length ≠ 1 := by omega
    rw [codegen_bundles_stops_at_section pre post b spre spost sec platform idx hb
      (fun i => codegen_section_not_ok _ sec i hc hne), andThen_of_ok _ _ hreach]
    exact codegen_section_classical_fatal _ sec _ hc
  · intro q u rest hsec hqt
    subst hsec
    have hgate : (run_to_gate pre b spre q idx).status = .ok := by
      unfold run_to_gate
      rw [andThen_status_ok]
      exact ⟨hreach, codegen_instrs_ok_of_quantum _ q _ hqt⟩
    refine ⟨?_, ?_, ?_, ?_⟩
    · intro hu
      exact codegen_bundles_stops_at_gate pre post b spre spost q rest u platform idx _ hb hgate
        (fun i => codegen_instr_of_measure _ u i hu) (fun _ => by simp [hu])
    · intro hu
      exact codegen_bundles_stops_at_gate pre post b spre spost q rest u platform idx _ hb hgate
        (fun i => codegen_instr_of_display _ u i hu) (fun _ => by simp [hu])
    · intro hu
      exact codegen_bundles_stops_at_gate pre post b spre spost q rest u platform idx _ hb hgate
        (fun i => codegen_instr_of_prepz _ u i hu) (fun _ => by simp [hu])
    · intro v hu
      exact codegen_bundles_stops_at_gate pre post b spre spost q rest u platform idx _ hb hgate
        (fun i => codegen_instr_of_other _ u i v hu) (fun _ => by simp [hu])

/-- Witness of C7: a section with the custom gate "x" followed by the classical gate
"add", where the instruction of "x" has been emitted when the run throws; a section with
a measurement before the classical gate, and one with a prepz gate before it, where the
run throws the error of that gate. -/
theorem classical_gate_with_others_witness :
    codegen_bundles
        [⟨0, 1, [[⟨"x", [0], [], 0, 1, .__custom_gate__⟩,
                  ⟨"add", [], [0, 1, 2], 0, 1, .__classical_gate__⟩]]⟩] ⟨2⟩ 0 =
      ⟨.fatal "Inconsistency detected in bundle contents: classical gate found after first section (which itself was non-classical)",
        1, [.bundle_start "## Bundle 0: start_cycle=0, duration_in_cycles=1:",
            .custom_gate "x" [0] [] 0 0 1]⟩ ∧
    codegen_bundles
        [⟨0, 1, [[⟨"measure", [0], [], 0, 1, .__measure_gate__⟩,
                  ⟨"add", [], [0, 1, 2], 0, 1, .__classical_gate__⟩]]⟩] ⟨2⟩ 0 =
      ⟨.fatal "Gate type __measure_gate__ not supported",
        1, [.bundle_start "## Bundle 0: start_cycle=0, duration_in_cycles=1:"]⟩ ∧
    codegen_bundles
        [⟨0, 1, [[⟨"x", [0], [], 0, 1, .__custom_gate__⟩,
                  ⟨"prepz", [0], [], 0, 1, .__prepz_gate__⟩,
                  ⟨"add", [], [0, 1, 2], 0, 1, .__classical_gate__⟩]]⟩] ⟨2⟩ 0 =
      ⟨.fatal "Unsupported gate type: 18",
        1, [.bundle_start "## Bundle 0: start_cycle=0, duration_in_cycles=1:",
            .custom_gate "x" [0] [] 0 0 1]⟩ :=
  ⟨(classical_gate_with_others [] []
      ⟨0, 1, [[⟨"x", [0], [], 0, 1, .__custom_gate__⟩,
               ⟨"add", [], [0, 1, 2], 0, 1, .__classical_gate__⟩]]⟩
      [] []
      [⟨"x", [0], [], 0, 1, .__custom_gate__⟩, ⟨"add", [], [0, 1, 2], 0, 1, .__classical_gate__⟩]
      ⟨2⟩ 0 rfl (by decide)).2.1
    [⟨"x", [0], [], 0, 1, .__custom_gate__⟩] ⟨"add", [], [0, 1, 2], 0, 1, .__classical_gate__⟩ []
    rfl (by decide) (by decide) rfl,
   ((classical_gate_with_others [] []
      ⟨0, 1, [[⟨"measure", [0], [], 0, 1, .__measure_gate__⟩,
               ⟨"add", [], [0, 1, 2], 0, 1, .__classical_gate__⟩]]⟩
      [] []
      [⟨"measure", [0], [], 0, 1, .__measure_gate__⟩,
       ⟨"add", [], [0, 1, 2], 0, 1, .__classical_gate__⟩]
      ⟨2⟩ 0 rfl (by decide)).2.2.2
    [] ⟨"measure", [0], [], 0, 1, .__measure_gate__⟩
    [⟨"add", [], [0, 1, 2], 0, 1, .__classical_gate__⟩] rfl (by decide)).1 rfl,
   ((classical_gate_with_others [] []
      ⟨0, 1, [[⟨"x", [0], [], 0, 1, .__custom_gate__⟩,
               ⟨"prepz", [0], [], 0, 1, .__prepz_gate__⟩,
               ⟨"add", [], [0, 1, 2], 0, 1, .__classical_gate__⟩]]⟩
      [] []
      [⟨"x", [0], [], 0, 1, .__custom_gate__⟩,
       ⟨"prepz", [0], [], 0, 1, .__prepz_gate__⟩,
       ⟨"add", [], [0, 1, 2], 0, 1, .__classical_gate__⟩]
      ⟨2⟩ 0 rfl (by decide)).2.2.2
    [⟨"x", [0], [], 0, 1, .__custom_gate__⟩] ⟨"prepz", [0], [], 0, 1, .__prepz_gate__⟩
    [⟨"add", [], [0, 1, 2], 0, 1, .__classical_gate__⟩] rfl (by decide)).2.2.1 rfl⟩

/-- C8: when `codegen_bundles` reaches, in the loop over the instructions of a section,
a gate of type `__measure_gate__` or `__display__`, it throws "Gate type
__measure_gate__ not supported" or "Gate type __display__ not supported" at that gate.
What has been emitted is exactly what had been emitted when the gate was reached: no
instruction for a later gate or a later section of the bundle, no trailer for the
bundle, and nothing for a later bundle; the result is the same whatever follows the
gate. -/
theorem measure_display_stops (pre post : bundles_t) (b : bundle_t)
    (spre spost : List section_t) (gpre gpost : List gate) (g : gate)
    (platform : quantum_platform) (idx : Nat)
    (hb : b.parallel_sections = spre ++ (gpre ++ g :: gpost) :: spost)
    (hg : g.type = .__measure_gate__ ∨ g.type = .__display__)
    (hreach : (run_to_gate pre b spre gpre idx).status = .ok) :
    codegen_bundles (pre ++ b :: post) platform idx =
      ⟨.fatal (if g.type = .__measure_gate__ then "Gate type __measure_gate__ not supported"
          else "Gate type __display__ not supported"),
        (run_to_gate pre b spre gpre idx).bundleIdx, (run_to_gate pre b spre gpre idx).out⟩ ∧
    ∀ gpost2 spost2 post2,
      codegen_bundles
          (pre ++ ⟨b.start_cycle, b.duration_in_cycles,
            spre ++ (gpre ++ g :: gpost2) :: spost2⟩ :: post2) platform idx =
        codegen_bundles (pre ++ b :: post) platform idx := by
  have hmsg : ∀ sc i, codegen_instr sc g i =
      ⟨.fatal (if g.type = .__measure_gate__ then "Gate type __measure_gate__ not supported"
          else "Gate type __display__ not supported"), i, []⟩ := by
    intro sc i
    rcases hg with h | h
    · rw [codegen_instr_of_measure sc g i h, if_pos h]
    · rw [codegen_instr_of_display sc g i h, if_neg (by simp [h])]
  have hgc : gpre = [] → g.type ≠ .__classical_gate__ := by
    intro _
    rcases hg with h | h <;> simp [h]
  have hmain := codegen_bundles_stops_at_gate pre post b spre spost gpre gpost g platform idx _
    hb hreach (hmsg _) hgc
  refine ⟨hmain, ?_⟩
  intro gpost2 spost2 post2
  rw [hmain]
  exact codegen_bundles_stops_at_gate pre post2
    ⟨b.start_cycle, b.duration_in_cycles, spre ++ (gpre ++ g :: gpost2) :: spost2⟩
    spre spost2 gpre gpost2 g platform idx _ rfl hreach (hmsg _) hgc

/-- Witness of C8: in the first of two bundles a measurement stands between two custom
gates, in the first of two sections; the run stops after the instruction of the first
custom gate. -/
theorem measure_display_stops_witness :
    codegen_bundles
        [⟨3, 2, [[⟨"x", [0], [], 0, 1, .__custom_gate__⟩,
                  ⟨"measure", [1], [], 0, 2, .__measure_gate__⟩,
                  ⟨"y", [2], [], 0, 1, .__custom_gate__⟩],
                 [⟨"z", [3], [], 0, 1, .__custom_gate__⟩]]⟩,
         ⟨5, 1, [[⟨"x", [0], [], 0, 1, .__custom_gate__⟩]]⟩] ⟨4⟩ 0 =
      ⟨.fatal "Gate type __measure_gate__ not supported", 1,
        [.bundle_start "## Bundle 0: start_cycle=3, duration_in_cycles=2:",
         .custom_gate "x" [0] [] 0 3 1]⟩ :=
  (measure_display_stops []
      [⟨5, 1, [[⟨"x", [0], [], 0, 1, .__custom_gate__⟩]]⟩]
      ⟨3, 2, [[⟨"x", [0], [], 0, 1, .__custom_gate__⟩,
               ⟨"measure", [1], [], 0, 2, .__measure_gate__⟩,
               ⟨"y", [2], [], 0, 1, .__custom_gate__⟩],
              [⟨"z", [3], [], 0, 1, .__custom_gate__⟩]]⟩
      [] [[⟨"z", [3], [], 0, 1, .__custom_gate__⟩]]
      [⟨"x", [0], [], 0, 1, .__custom_gate__⟩] [⟨"y", [2], [], 0, 1, .__custom_gate__⟩]
      ⟨"measure", [1], [], 0, 2, .__measure_gate__⟩ ⟨4⟩ 0 rfl (Or.inl rfl) (by decide)).1

/-! ## The running bundle index -/

theorem bundleStarts_append (a b : List Event) :
    bundleStarts (a ++ b) = bundleStarts a ++ bundleStarts b := by
  induction a with
  | nil => rfl
  | cons e rest ih =>
    cases e <;> simp [bundleStarts, ih]

theorem headers_append (idx : Nat) (a b : bundles_t) :
    headers idx (a ++ b) = headers idx a ++ headers (idx + a.length) b := by
  induction a generalizing idx with
  | nil => simp [headers]
  | cons x rest ih =>
    show headers idx (x :: (rest ++ b)) = _
    rw [headers, headers, ih (idx + 1), List.length_cons,
      show idx + 1 + rest.length = idx + (rest.length + 1) by omega]
    rfl

theorem headers_length (idx : Nat) (bs : bundles_t) : (headers idx bs).length = bs.length := by
  induction bs generalizing idx with
  | nil => rfl
  | cons x rest ih => simp [headers, ih]

theorem headers_getElem? (idx j : Nat) (bs : bundles_t) (b : bundle_t) (hj : bs[j]? = some b) :
    (headers idx bs)[j]? = some (bundleHeader (idx + j) b.start_cycle b.duration_in_cycles) := by
  induction bs generalizing idx j with
  | nil => simp at hj
  | cons x rest ih =>
    cases j with
    | zero =>
      simp only [List.getElem?_cons_zero, Option.some.injEq] at hj
      subst hj
      simp [headers]
    | succ n =>
      simp only [List.getElem?_cons_succ] at hj
      simp only [headers, List.getElem?_cons_succ]
      rw [ih (idx + 1) n hj, show idx + 1 + n = idx + (n + 1) by omega]

/-- A successful sequence: both parts returned, and the headers and the bundle index
are those of the first part followed by those of the second. -/
theorem andThen_starts (r : Run) (f : Nat → Run) (h : (r.andThen f).status = .ok) :
    r.status = .ok ∧ (f r.bundleIdx).status = .ok ∧
    bundleStarts (r.andThen f).out = bundleStarts r.out ++ bundleStarts (f r.bundleIdx).out ∧
    (r.andThen f).bundleIdx = (f r.bundleIdx).bundleIdx := by
  have h2 := (andThen_status_ok r f).mp h
  refine ⟨h2.1, h2.2, ?_, ?_⟩
  · rw [andThen_of_ok r f h2.1]
    exact bundleStarts_append _ _
  · rw [andThen_of_ok r f h2.1]

/-- A sequence of two parts that emit no bundle header and leave the bundle index alone
does so too. -/
theorem andThen_quiet (r : Run) (f : Nat → Run) (idx : Nat)
    (hr : bundleStarts r.out = [] ∧ r.bundleIdx = idx)
    (hf : ∀ i, bundleStarts (f i).out = [] ∧ (f i).bundleIdx = i) :
    bundleStarts (r.andThen f).out = [] ∧ (r.andThen f).bundleIdx = idx := by
  rcases r with ⟨s, i, o⟩
  cases s
  · simp only [Run.andThen, bundleStarts_append]
    simp only at hr
    rw [hr.1, (hf i).1, (hf i).2]
    exact ⟨rfl, hr.2⟩
  · simpa [Run.andThen] using hr
  · simpa [Run.andThen] using hr

theorem codegen_instr_quiet (sc : Nat) (g : gate) (idx : Nat) :
    bundleStarts (codegen_instr sc g idx).out = [] ∧ (codegen_instr sc g idx).bundleIdx = idx := by
  cases h : g.type <;> simp [codegen_instr, h, FATAL, emit, bundleStarts]

theorem codegen_instrs_quiet (sc : Nat) (l : List gate) (idx : Nat) :
    bundleStarts (codegen_instrs sc l idx).out = [] ∧
      (codegen_instrs sc l idx).bundleIdx = idx := by
  induction l generalizing idx with
  | nil => exact ⟨rfl, rfl⟩
  | cons g rest ih =>
    rw [codegen_instrs]
    exact andThen_quiet _ _ idx (codegen_instr_quiet sc g idx) ih

theorem codegen_section_quiet (sc : Nat) (sec : section_t) (idx : Nat) :
    bundleStarts (codegen_section sc sec idx).out = [] ∧
      (codegen_section sc sec idx).bundleIdx = idx := by
  cases sec with
  | nil => exact ⟨rfl, rfl⟩
  | cons x rest =>
    by_cases hx : x.type = .__classical_gate__
    · cases rest with
      | nil =>
        obtain ⟨msg, hm⟩ := codegen_classical_instruction_fatal x idx
        simp [codegen_section, hx, hm, bundleStarts]
      | cons y rest2 =>
        rw [codegen_section_classical_many sc x y rest2 idx hx]
        exact ⟨rfl, rfl⟩
    · rw [codegen_section_of_quantum_head sc x rest idx hx]
      exact codegen_instrs_quiet sc _ idx

theorem codegen_sections_quiet (sc : Nat) (l : List section_t) (idx : Nat) :
    bundleStarts (codegen_sections sc l idx).out = [] ∧
      (codegen_sections sc l idx).bundleIdx = idx := by
  induction l generalizing idx with
  | nil => exact ⟨rfl, rfl⟩
  | cons g rest ih =>
    rw [codegen_sections]
    exact andThen_quiet _ _ idx (codegen_section_quiet sc g idx) ih

theorem prologue_quiet (k : quantum_kernel) (idx : Nat) :
    bundleStarts (codegen_kernel_prologue k idx).out = [] ∧
      (codegen_kernel_prologue k idx).bundleIdx = idx := by
  refine ⟨?_, prologue_bundleIdx k idx⟩
  unfold codegen_kernel_prologue
  rw [emit_andThen]
  simp only
  split <;> (try split) <;> simp [emit, skip, FATAL, UB, bundleStarts]

theorem epilogue_quiet (k : quantum_kernel) (idx : Nat) :
    bundleStarts (codegen_kernel_epilogue k idx).out = [] ∧
      (codegen_kernel_epilogue k idx).bundleIdx = idx := by
  refine ⟨?_, epilogue_bundleIdx k idx⟩
  unfold codegen_kernel_epilogue
  split <;> (try split) <;> (try split) <;> simp [emit, skip, FATAL, UB, bundleStarts]

theorem codegen_kernel_finish_quiet (k : quantum_kernel) (bundles : bundles_t) (idx : Nat) :
    bundleStarts (codegen_kernel_finish k bundles idx).out = [] ∧
      (codegen_kernel_finish k bundles idx).bundleIdx = idx := by
  unfold codegen_kernel_finish
  split <;> simp [emit, UB, bundleStarts]

/-- A bundle that is compiled successfully gets one header, with the bundle index at
which it starts, and moves the index on by one. -/
theorem codegen_bundle_starts (isLast : Bool) (b : bundle_t) (idx : Nat)
    (h : (codegen_bundle isLast b idx).status = .ok) :
    bundleStarts (codegen_bundle isLast b idx).out =
        [bundleHeader idx b.start_cycle b.duration_in_cycles] ∧
      (codegen_bundle isLast b idx).bundleIdx = idx + 1 := by
  unfold codegen_bundle at h ⊢
  obtain ⟨h1, _, h3, h4⟩ := andThen_starts _ _ h
  obtain ⟨_, _, h7, h8⟩ := andThen_starts _ _ h1
  have hs := codegen_sections_quiet b.start_cycle b.parallel_sections
    (codegen_bundle_header b idx).bundleIdx
  rw [h3, h4, h7, h8, hs.1, hs.2]
  simp [codegen_bundle_header, emit, bundleStarts]

theorem codegen_bundles_loop_starts (bs : bundles_t) (idx : Nat)
    (h : (codegen_bundles_loop bs idx).status = .ok) :
    bundleStarts (codegen_bundles_loop bs idx).out = headers idx bs ∧
      (codegen_bundles_loop bs idx).bundleIdx = idx + bs.length := by
  induction bs generalizing idx with
  | nil => exact ⟨rfl, rfl⟩
  | cons b rest ih =>
    rw [codegen_bundles_loop] at h ⊢
    obtain ⟨h1, h2, h3, h4⟩ := andThen_starts _ _ h
    have hb := codegen_bundle_starts _ b idx h1
    rw [hb.2] at h2 h3 h4
    have hr := ih (idx + 1) h2
    rw [h3, h4, hb.1, hr.1, hr.2]
    simp only [headers, List.length_cons, List.singleton_append, true_and]
    omega

theorem compile_kernel_starts (sched : Scheduler) (platform : quantum_platform)
    (k : quantum_kernel) (idx : Nat) (h : (compile_kernel sched platform k idx).status = .ok) :
    bundleStarts (compile_kernel sched platform k idx).out =
        headers idx (kernelBundles sched platform k) ∧
      (compile_kernel sched platform k idx).bundleIdx =
        idx + (kernelBundles sched platform k).length := by
  unfold compile_kernel at h ⊢
  obtain ⟨h1, _, h3, h4⟩ := andThen_starts _ _ h
  obtain ⟨_, h6, h7, h8⟩ := andThen_starts _ _ h1
  have hp := prologue_quiet k idx
  rw [h3, h4, (epilogue_quiet k _).1, (epilogue_quiet k _).2, h7, h8, hp.1]
  rw [hp.2] at h6 ⊢
  cases hc : k.c.isEmpty with
  | true =>
    simp [kernelBundles, hc, skip, headers, bundleStarts]
  | false =>
    simp only [hc, Bool.not_false, if_true] at h6 ⊢
    obtain ⟨h9, _, h11, h12⟩ := andThen_starts _ _ h6
    obtain ⟨_, h14, h15, h16⟩ := andThen_starts _ _ h9
    have hk := codegen_kernel_finish_quiet k
      (sched k.c platform platform.qubit_number k.creg_count)
    rw [h11, h12, (hk _).1, (hk _).2, h15, h16]
    have hi : ((emit (.cc_light_schedule k.c platform platform.qubit_number k.creg_count)
        idx).andThen (emit .kernel_start)).bundleIdx = idx := rfl
    have ho : bundleStarts ((emit (.cc_light_schedule k.c platform platform.qubit_number
        k.creg_count) idx).andThen (emit .kernel_start)).out = [] := rfl
    rw [hi] at h14 ⊢
    rw [ho]
    have hl := codegen_bundles_loop_starts _ idx h14
    unfold codegen_bundles
    rw [hl.1, hl.2]
    simp [kernelBundles, hc]

theorem compile_kernels_starts (sched : Scheduler) (platform : quantum_platform)
    (ks : List quantum_kernel) (idx : Nat)
    (h : (compile_kernels sched platform ks idx).status = .ok) :
    bundleStarts (compile_kernels sched platform ks idx).out =
        headers idx (programBundles sched platform ks) ∧
      (compile_kernels sched platform ks idx).bundleIdx =
        idx + (programBundles sched platform ks).length := by
  induction ks generalizing idx with
  | nil => exact ⟨rfl, rfl⟩
  | cons k rest ih =>
    rw [compile_kernels] at h ⊢
    obtain ⟨h1, h2, h3, h4⟩ := andThen_starts _ _ h
    have hk := compile_kernel_starts sched platform k idx h1
    rw [hk.2] at h2 h3 h4
    have hr := ih _ h2
    rw [h3, h4, hk.1, hr.1, hr.2, programBundles, headers_append, List.length_append]
    exact ⟨rfl, by omega⟩

theorem programBundles_append (sched : Scheduler) (platform : quantum_platform)
    (a b : List quantum_kernel) :
    programBundles sched platform (a ++ b) =
      programBundles sched platform a ++ programBundles sched platform b := by
  induction a with
  | nil => rfl
  | cons k rest ih =>
    show programBundles sched platform (k :: (rest ++ b)) = _
    rw [programBundles, programBundles, ih, List.append_assoc]

theorem write_files_quiet (opts : Options) (prog_name : String) (idx : Nat) :
    bundleStarts (write_files opts prog_name idx).out = [] ∧
      (write_files opts prog_name idx).bundleIdx = idx := by
  unfold write_files
  rw [emit_andThen]
  simp only
  split <;> simp [emit, skip, bundleStarts]

theorem compile_starts (sched : Scheduler) (opts : Options) (prog_name : String)
    (kernels : List quantum_kernel) (platform : quantum_platform) (idx : Nat)
    (h : (compile sched opts prog_name kernels platform idx).status = .ok) :
    bundleStarts (compile sched opts prog_name kernels platform idx).out =
        headers 0 (programBundles sched platform kernels) ∧
      (compile sched opts prog_name kernels platform idx).bundleIdx =
        (programBundles sched platform kernels).length := by
  unfold compile at h ⊢
  by_cases hk : kernels.length = 0
  · simp [hk, FATAL] at h
  · rw [if_neg hk] at h ⊢
    obtain ⟨h1, _, h3, h4⟩ := andThen_starts _ _ h
    obtain ⟨h5, _, h7, h8⟩ := andThen_starts _ _ h1
    obtain ⟨_, h10, h11, h12⟩ := andThen_starts _ _ h5
    have hw := write_files_quiet opts prog_name
    have hi : (((((load_hw_settings platform idx).andThen
        (emit (.codegen_init platform))).andThen reset_bundleIdx).andThen
        (emit (.program_start prog_name)))).bundleIdx = 0 := rfl
    have ho : bundleStarts (((((load_hw_settings platform idx).andThen
        (emit (.codegen_init platform))).andThen reset_bundleIdx).andThen
        (emit (.program_start prog_name)))).out = [] := rfl
    rw [hi] at h10 h11 h12
    have hl := compile_kernels_starts sched platform kernels 0 h10
    rw [h3, h4, (hw _).1, (hw _).2, h7, h8, h11, h12, ho, hl.1, hl.2]
    simp [emit, bundleStarts]

/-- C10: in a successful compilation the bundle index of the headers runs across the
whole program. `compile` starts it at 0, whatever it was before. The header texts, in
the order of emission, are those of the bundle sequences of the kernels, one kernel
after the other, with the indices 0, 1, 2, ..., each with the start cycle and the
duration of its own bundle. So the `j`-th bundle of a kernel, counted from 0, carries
the number of bundles of all kernels before it plus `j`, and stands at that position
among the headers; and the bundle index ends at the number of bundles of the program. -/
theorem bundle_index_runs_across_program (sched : Scheduler) (opts : Options)
    (prog_name : String) (kernels : List quantum_kernel) (platform : quantum_platform)
    (idx : Nat) (h : (compile sched opts prog_name kernels platform idx).status = .ok) :
    bundleStarts (compile sched opts prog_name kernels platform idx).out =
        headers 0 (programBundles sched platform kernels) ∧
    (∀ pre k post j b, kernels = pre ++ k :: post →
      (kernelBundles sched platform k)[j]? = some b →
      (bundleStarts (compile sched opts prog_name kernels platform idx).out)[
          (programBundles sched platform pre).length + j]? =
        some (bundleHeader ((programBundles sched platform pre).length + j)
          b.start_cycle b.duration_in_cycles)) ∧
    (compile sched opts prog_name kernels platform idx).bundleIdx =
      (programBundles sched platform kernels).length := by
  have hs := compile_starts sched opts prog_name kernels platform idx h
  refine ⟨hs.1, ?_, hs.2⟩
  intro pre k post j b hk hb
  rw [hs.1]
  have hget : (programBundles sched platform kernels)[
      (programBundles sched platform pre).length + j]? = some b := by
    rw [hk, programBundles_append, programBundles, List.getElem?_append_right (by omega)]
    simp only [Nat.add_sub_cancel_left]
    have hj : j < (kernelBundles sched platform k).length := by
      by_contra hn
      rw [List.getElem?_eq_none (by omega)] at hb
      simp at hb
    rw [List.getElem?_append_left hj]
    exact hb
  have := headers_getElem? 0 _ _ b hget
  simpa using this

/-- Witness of C10: three kernels, the second without gates; the scheduler answers every
circuit with two bundles, so the program has four bundles, numbered 0 to 3. The index
the member had before the call, 17, plays no part. -/
theorem bundle_index_runs_across_program_witness :
    bundleStarts (compile (fun ckt _ _ _ => [⟨0, 1, [ckt]⟩, ⟨1, 2, [ckt]⟩]) ⟨"out", ""⟩ "prog"
        [⟨"k1", .STATIC, [⟨"x", [0], [], 0, 1, .__custom_gate__⟩], 0, 0, ⟨[], ""⟩⟩,
         ⟨"sp1_for1_start", .FOR_START, [], 3, 0, ⟨[], ""⟩⟩,
         ⟨"k3", .STATIC, [⟨"y", [1], [], 0, 2, .__custom_gate__⟩], 0, 0, ⟨[], ""⟩⟩]
        ⟨2⟩ 17).out =
      ["## Bundle 0: start_cycle=0, duration_in_cycles=1:",
       "## Bundle 1: start_cycle=1, duration_in_cycles=2:",
       "## Bundle 2: start_cycle=0, duration_in_cycles=1:",
       "## Bundle 3: start_cycle=1, duration_in_cycles=2:"] ∧
    (compile (fun ckt _ _ _ => [⟨0, 1, [ckt]⟩, ⟨1, 2, [ckt]⟩]) ⟨"out", ""⟩ "prog"
        [⟨"k1", .STATIC, [⟨"x", [0], [], 0, 1, .__custom_gate__⟩], 0, 0, ⟨[], ""⟩⟩,
         ⟨"sp1_for1_start", .FOR_START, [], 3, 0, ⟨[], ""⟩⟩,
         ⟨"k3", .STATIC, [⟨"y", [1], [], 0, 2, .__custom_gate__⟩], 0, 0, ⟨[], ""⟩⟩]
        ⟨2⟩ 17).bundleIdx = 4 :=
  ⟨(bundle_index_runs_across_program (fun ckt _ _ _ => [⟨0, 1, [ckt]⟩, ⟨1, 2, [ckt]⟩])
      ⟨"out", ""⟩ "prog"
      [⟨"k1", .STATIC, [⟨"x", [0], [], 0, 1, .__custom_gate__⟩], 0, 0, ⟨[], ""⟩⟩,
       ⟨"sp1_for1_start", .FOR_START, [], 3, 0, ⟨[], ""⟩⟩,
       ⟨"k3", .STATIC, [⟨"y", [1], [], 0, 2, .__custom_gate__⟩], 0, 0, ⟨[], ""⟩⟩]
      ⟨2⟩ 17 (by decide)).1,
   (bundle_index_runs_across_program (fun ckt _ _ _ => [⟨0, 1, [ckt]⟩, ⟨1, 2, [ckt]⟩])
      ⟨"out", ""⟩ "prog"
      [⟨"k1", .STATIC, [⟨"x", [0], [], 0, 1, .__custom_gate__⟩], 0, 0, ⟨[], ""⟩⟩,
       ⟨"sp1_for1_start", .FOR_START, [], 3, 0, ⟨[], ""⟩⟩,
       ⟨"k3", .STATIC, [⟨"y", [1], [], 0, 2, .__custom_gate__⟩], 0, 0, ⟨[], ""⟩⟩]
      ⟨2⟩ 17 (by decide)).2.2⟩

/-! ## Bundles of accepted gates -/

theorem codegen_instr_of_quantum (sc : Nat) (g : gate) (idx : Nat)
    (hg : g.type = .__nop_gate__ ∨ g.type = .__custom_gate__) :
    codegen_instr sc g idx = ⟨.ok, idx, [gateInstruction sc g]⟩ := by
  rcases hg with h | h <;> simp [codegen_instr, gateInstruction, h, emit]

theorem codegen_instrs_of_quantum (sc : Nat) (l : List gate) (idx : Nat)
    (hl : ∀ g ∈ l, g.type = .__nop_gate__ ∨ g.type = .__custom_gate__) :
    codegen_instrs sc l idx = ⟨.ok, idx, l.map (gateInstruction sc)⟩ := by
  induction l with
  | nil => rfl
  | cons g rest ih =>
    rw [codegen_instrs, codegen_instr_of_quantum sc g idx (hl g (List.mem_cons_self _ _)),
      andThen_of_ok _ _ rfl, ih (fun x hx => hl x (List.mem_cons_of_mem _ hx))]
    rfl

theorem codegen_section_of_quantum (sc : Nat) (sec : section_t) (idx : Nat) (hne : sec ≠ [])
    (hl : ∀ g ∈ sec, g.type = .__nop_gate__ ∨ g.type = .__custom_gate__) :
    codegen_section sc sec idx = ⟨.ok, idx, sec.map (gateInstruction sc)⟩ := by
  cases sec with
  | nil => exact absurd rfl hne
  | cons x rest =>
    have hx : x.type ≠ .__classical_gate__ := by
      rcases hl x (List.mem_cons_self _ _) with h | h <;> simp [h]
    rw [codegen_section_of_quantum_head sc x rest idx hx]
    exact codegen_instrs_of_quantum sc _ idx hl

theorem codegen_sections_of_quantum (sc : Nat) (secs : List section_t) (idx : Nat)
    (hl : ∀ sec ∈ secs, sec ≠ [] ∧ ∀ g ∈ sec, g.type = .__nop_gate__ ∨ g.type = .__custom_gate__) :
    codegen_sections sc secs idx = ⟨.ok, idx, secs.flatten.map (gateInstruction sc)⟩ := by
  induction secs with
  | nil => rfl
  | cons sec rest ih =>
    have hs := hl sec (List.mem_cons_self _ _)
    rw [codegen_sections, codegen_section_of_quantum sc sec idx hs.1 hs.2,
      andThen_of_ok _ _ rfl, ih (fun x hx => hl x (List.mem_cons_of_mem _ hx))]
    simp

theorem codegen_bundle_of_quantum (isLast : Bool) (b : bundle_t) (idx : Nat)
    (hl : ∀ sec ∈ b.parallel_sections,
      sec ≠ [] ∧ ∀ g ∈ sec, g.type = .__nop_gate__ ∨ g.type = .__custom_gate__) :
    codegen_bundle isLast b idx = ⟨.ok, idx + 1, bundleEvents isLast idx b⟩ := by
  unfold codegen_bundle codegen_bundle_header
  rw [emit_andThen, codegen_sections_of_quantum _ _ _ hl]
  simp [Run.andThen, emit, bundleEvents]

theorem codegen_bundles_loop_of_supported (bs : bundles_t) (idx : Nat) (h : Supported bs) :
    codegen_bundles_loop bs idx = ⟨.ok, idx + bs.length, bundlesEvents idx bs⟩ := by
  induction bs generalizing idx with
  | nil => rfl
  | cons b rest ih =>
    rw [codegen_bundles_loop, codegen_bundle_of_quantum _ b idx (h b (List.mem_cons_self _ _)),
      andThen_of_ok _ _ rfl, ih (idx + 1) (fun x hx => h x (List.mem_cons_of_mem _ hx))]
    simp only [bundlesEvents, List.length_cons, Run.mk.injEq, true_and, and_true]
    omega

theorem codegen_section_ok_inv (sc : Nat) (sec : section_t) (idx : Nat)
    (h : (codegen_section sc sec idx).status = .ok) :
    sec ≠ [] ∧ ∀ g ∈ sec, g.type = .__nop_gate__ ∨ g.type = .__custom_gate__ := by
  cases sec with
  | nil => simp [codegen_section, UB] at h
  | cons x rest =>
    refine ⟨by simp, ?_⟩
    by_cases hx : x.type = .__classical_gate__
    · obtain ⟨msg, hm⟩ := codegen_section_classical_fatal sc (x :: rest) idx
        ⟨x, List.mem_cons_self _ _, hx⟩
      rw [hm] at h
      simp at h
    · rw [codegen_section_of_quantum_head sc x rest idx hx] at h
      exact codegen_instrs_ok_types sc _ idx h

theorem codegen_sections_ok_inv (sc : Nat) (secs : List section_t) (idx : Nat)
    (h : (codegen_sections sc secs idx).status = .ok) :
    ∀ sec ∈ secs, sec ≠ [] ∧ ∀ g ∈ sec, g.type = .__nop_gate__ ∨ g.type = .__custom_gate__ := by
  induction secs generalizing idx with
  | nil => simp
  | cons sec rest ih =>
    rw [codegen_sections, andThen_status_ok] at h
    intro s hs
    rcases List.mem_cons.mp hs with rfl | hs
    · exact codegen_section_ok_inv sc s idx h.1
    · exact ih _ h.2 s hs

/-- The bundle sequences `codegen_bundles` compiles successfully are exactly those in
which every section is non-empty and every gate is a nop or a custom gate. -/
theorem codegen_bundles_loop_ok_inv (bs : bundles_t) (idx : Nat)
    (h : (codegen_bundles_loop bs idx).status = .ok) : Supported bs := by
  induction bs generalizing idx with
  | nil =>
    intro b hb
    simp at hb
  | cons b rest ih =>
    rw [codegen_bundles_loop, andThen_status_ok] at h
    intro x hx
    rcases List.mem_cons.mp hx with rfl | hx
    · have h1 := h.1
      unfold codegen_bundle at h1
      rw [andThen_status_ok, andThen_status_ok] at h1
      exact codegen_sections_ok_inv _ _ _ h1.1.2
    · exact ih _ h.2 x hx

theorem isGate_gateInstruction (sc : Nat) (g : gate) :
    (gateInstruction sc g).isGate = true := by
  unfold gateInstruction
  split <;> rfl

theorem isBundleFinish_gateInstruction (sc : Nat) (g : gate) :
    (gateInstruction sc g).isBundleFinish = false := by
  unfold gateInstruction
  split <;> rfl

theorem isLastBundleFinish_gateInstruction (sc : Nat) (g : gate) :
    (gateInstruction sc g).isLastBundleFinish = false := by
  unfold gateInstruction
  split <;> rfl

theorem filter_isGate_bundleEvents (fl : Bool) (idx : Nat) (b : bundle_t) :
    ((bundleEvents fl idx b).filter Event.isGate).length = b.parallel_sections.flatten.length := by
  unfold bundleEvents
  rw [List.filter_cons_of_neg (by simp [Event.isGate]), List.filter_append,
    List.filter_eq_self.mpr (by
      intro e he
      obtain ⟨g, _, rfl⟩ := List.mem_map.mp he
      exact isGate_gateInstruction _ g),
    List.filter_cons_of_neg (by simp [Event.isBundleFinish, Event.isGate]), List.filter_nil,
    List.append_nil, List.length_map]

theorem filter_isGate_bundlesEvents (idx : Nat) (bs : bundles_t) :
    ((bundlesEvents idx bs).filter Event.isGate).length =
      (bs.map fun b => b.parallel_sections.flatten.length).sum := by
  induction bs generalizing idx with
  | nil => rfl
  | cons b rest ih =>
    rw [bundlesEvents, List.filter_append, List.length_append, filter_isGate_bundleEvents,
      ih (idx + 1)]
    simp

/-- C13: a bundle sequence in which every section is non-empty and every gate is a nop
or a custom gate is compiled successfully by `codegen_bundles`. The events are, for each
bundle in the given order, its header, then one instruction per gate in section order
and in gate order within a section (`nop_gate` for a nop, `custom_gate` with the name,
the qubit operands, the classical register operands, the angle, the start cycle of the
bundle and the duration of the gate for a custom gate), then its trailer. The number of
gate instructions is the total number of gates. -/
theorem supported_bundles_emitted (bs : bundles_t) (platform : quantum_platform) (idx : Nat)
    (h : Supported bs) :
    codegen_bundles bs platform idx = ⟨.ok, idx + bs.length, bundlesEvents idx bs⟩ ∧
    ((codegen_bundles bs platform idx).out.filter Event.isGate).length =
      (bs.map fun b => b.parallel_sections.flatten.length).sum := by
  have hm : codegen_bundles bs platform idx = ⟨.ok, idx + bs.length, bundlesEvents idx bs⟩ :=
    codegen_bundles_loop_of_supported bs idx h
  refine ⟨hm, ?_⟩
  rw [hm]
  exact filter_isGate_bundlesEvents idx bs

/-- Witness of C13: two bundles; the first section of the first bundle mixes a nop with
the custom gate "x". -/
theorem supported_bundles_emitted_witness :
    codegen_bundles
        [⟨0, 1, [[⟨"nop", [], [], 0, 1, .__nop_gate__⟩, ⟨"x", [0], [], 0, 1, .__custom_gate__⟩],
                 [⟨"ry", [1], [2], 90, 3, .__custom_gate__⟩]]⟩,
         ⟨1, 2, [[⟨"cz", [0, 1], [], 0, 2, .__custom_gate__⟩]]⟩] ⟨2⟩ 5 =
      ⟨.ok, 7,
        [.bundle_start "## Bundle 5: start_cycle=0, duration_in_cycles=1:",
         .nop_gate,
         .custom_gate "x" [0] [] 0 0 1,
         .custom_gate "ry" [1] [2] 90 0 3,
         .bundle_finish 0 1 false,
         .bundle_start "## Bundle 6: start_cycle=1, duration_in_cycles=2:",
         .custom_gate "cz" [0, 1] [] 0 1 2,
         .bundle_finish 1 2 true]⟩ :=
  (supported_bundles_emitted
    [⟨0, 1, [[⟨"nop", [], [], 0, 1, .__nop_gate__⟩, ⟨"x", [0], [], 0, 1, .__custom_gate__⟩],
             [⟨"ry", [1], [2], 90, 3, .__custom_gate__⟩]]⟩,
     ⟨1, 2, [[⟨"cz", [0, 1], [], 0, 2, .__custom_gate__⟩]]⟩] ⟨2⟩ 5
    (by unfold Supported; decide)).1

/-! ## The bundle trailers -/

theorem filter_isBundleFinish_bundleEvents (fl : Bool) (idx : Nat) (b : bundle_t) :
    (bundleEvents fl idx b).filter Event.isBundleFinish =
      [.bundle_finish b.start_cycle b.duration_in_cycles fl] := by
  unfold bundleEvents
  rw [List.filter_cons_of_neg (by simp [Event.isBundleFinish]), List.filter_append,
    List.filter_eq_nil_iff.mpr (by
      intro e he
      obtain ⟨g, _, rfl⟩ := List.mem_map.mp he
      simp [isBundleFinish_gateInstruction])]
  simp [Event.isBundleFinish]

theorem filter_isLastBundleFinish_bundleEvents (fl : Bool) (idx : Nat) (b : bundle_t) :
    ((bundleEvents fl idx b).filter Event.isLastBundleFinish).length = if fl then 1 else 0 := by
  unfold bundleEvents
  rw [List.filter_cons_of_neg (by simp [Event.isLastBundleFinish]), List.filter_append,
    List.filter_eq_nil_iff.mpr (by
      intro e he
      obtain ⟨g, _, rfl⟩ := List.mem_map.mp he
      simp [isLastBundleFinish_gateInstruction])]
  cases fl <;> simp [Event.isLastBundleFinish]

theorem bundlesEvents_trailers (idx : Nat) (init : bundles_t) (last : bundle_t) :
    (bundlesEvents idx (init ++ [last])).filter Event.isBundleFinish =
        init.map (fun b => Event.bundle_finish b.start_cycle b.duration_in_cycles false) ++
          [.bundle_finish last.start_cycle last.duration_in_cycles true] ∧
    ((bundlesEvents idx (init ++ [last])).filter Event.isLastBundleFinish).length = 1 := by
  induction init generalizing idx with
  | nil =>
    simp only [List.nil_append, bundlesEvents, List.isEmpty_nil, List.append_nil, List.map_nil]
    exact ⟨filter_isBundleFinish_bundleEvents _ _ _,
      by rw [filter_isLastBundleFinish_bundleEvents]; rfl⟩
  | cons b rest ih =>
    have he : (rest ++ [last]).isEmpty = false := by
      cases rest <;> rfl
    show (bundlesEvents idx (b :: (rest ++ [last]))).filter _ = _ ∧
      ((bundlesEvents idx (b :: (rest ++ [last]))).filter _).length = 1
    rw [bundlesEvents, he, List.filter_append, List.filter_append, List.length_append,
      filter_isBundleFinish_bundleEvents, filter_isLastBundleFinish_bundleEvents,
      (ih (idx + 1)).1, (ih (idx + 1)).2]
    exact ⟨rfl, rfl⟩

/-- C11: for a non-empty bundle sequence that `codegen_bundles` compiles successfully,
the trailers are, in order, one per bundle with the start cycle and the duration of that
bundle; the last-bundle flag is false for every bundle that is followed by another one
and true for the bundle in the final position. The flag goes by position, not by
content, and exactly one trailer has it true. -/
theorem bundle_trailers (init : bundles_t) (last : bundle_t) (platform : quantum_platform)
    (idx : Nat) (h : (codegen_bundles (init ++ [last]) platform idx).status = .ok) :
    (codegen_bundles (init ++ [last]) platform idx).out.filter Event.isBundleFinish =
        init.map (fun b => Event.bundle_finish b.start_cycle b.duration_in_cycles false) ++
          [.bundle_finish last.start_cycle last.duration_in_cycles true] ∧
    ((codegen_bundles (init ++ [last]) platform idx).out.filter
        Event.isLastBundleFinish).length = 1 := by
  have hs : Supported (init ++ [last]) := codegen_bundles_loop_ok_inv _ idx h
  have hm : codegen_bundles (init ++ [last]) platform idx =
      ⟨.ok, idx + (init ++ [last]).length, bundlesEvents idx (init ++ [last])⟩ :=
    codegen_bundles_loop_of_supported _ idx hs
  rw [hm]
  exact bundlesEvents_trailers idx init last

/-- Witness of C11: three bundles, the first equal in content to the last; only the one
in the final position is flagged. -/
theorem bundle_trailers_witness :
    (codegen_bundles
        ([⟨4, 2, [[⟨"x", [0], [], 0, 2, .__custom_gate__⟩]]⟩,
          ⟨6, 1, [[⟨"y", [0], [], 0, 1, .__custom_gate__⟩]]⟩] ++
         [⟨4, 2, [[⟨"x", [0], [], 0, 2, .__custom_gate__⟩]]⟩]) ⟨1⟩ 0).out.filter
        Event.isBundleFinish =
      [.bundle_finish 4 2 false, .bundle_finish 6 1 false, .bundle_finish 4 2 true] :=
  (bundle_trailers
    [⟨4, 2, [[⟨"x", [0], [], 0, 2, .__custom_gate__⟩]]⟩,
     ⟨6, 1, [[⟨"y", [0], [], 0, 1, .__custom_gate__⟩]]⟩]
    ⟨4, 2, [[⟨"x", [0], [], 0, 2, .__custom_gate__⟩]]⟩ ⟨1⟩ 0 (by decide)).1

/-! ## The kernel markers -/

/-- A successful sequence: both parts returned, and the events and the bundle index are
those of the first part followed by those of the second. -/
theorem andThen_ok_out (r : Run) (f : Nat → Run) (h : (r.andThen f).status = .ok) :
    r.status = .ok ∧ (f r.bundleIdx).status = .ok ∧
    (r.andThen f).out = r.out ++ (f r.bundleIdx).out ∧
    (r.andThen f).bundleIdx = (f r.bundleIdx).bundleIdx := by
  have h2 := (andThen_status_ok r f).mp h
  refine ⟨h2.1, h2.2, ?_, ?_⟩ <;> rw [andThen_of_ok r f h2.1]

theorem compile_kernel_of_gates (sched : Scheduler) (platform : quantum_platform)
    (k : quantum_kernel) (idx : Nat) (hc : k.c ≠ []) :
    compile_kernel sched platform k idx =
      ((codegen_kernel_prologue k idx).andThen fun i =>
        (((emit (.cc_light_schedule k.c platform platform.qubit_number k.creg_count) i).andThen
          (emit .kernel_start)).andThen
          (codegen_bundles (sched k.c platform platform.qubit_number k.creg_count) platform)).andThen
          (codegen_kernel_finish k
            (sched k.c platform platform.qubit_number k.creg_count))).andThen
        (codegen_kernel_epilogue k) := by
  have he : k.c.isEmpty = false := by
    cases hk : k.c with
    | nil => exact absurd hk hc
    | cons x rest => rfl
  unfold compile_kernel
  simp [he]

theorem codegen_kernel_finish_ok (k : quantum_kernel) (bundles : bundles_t) (idx : Nat) :
    (codegen_kernel_finish k bundles idx).status = .ok ↔ bundles ≠ [] := by
  unfold codegen_kernel_finish
  cases h : bundles.getLast? with
  | none =>
    have : bundles = [] := List.getLast?_eq_none_iff.mp h
    simp [UB, this]
  | some back =>
    have : bundles ≠ [] := by
      intro hb
      rw [hb] at h
      simp at h
    simp [emit, this]

/-- C12: for a kernel with gates that is compiled successfully, the events of the kernel
are: those of the prologue, the scheduler call, `kernel_start`, the events of
`codegen_bundles` on the scheduler's bundles, `kernel_finish` with the name of the
kernel and start cycle + duration of the bundle in the final position of the scheduler's
sequence (which is not empty), and those of the epilogue. -/
theorem kernel_markers (sched : Scheduler) (platform : quantum_platform) (k : quantum_kernel)
    (idx : Nat) (hc : k.c ≠ []) (h : (compile_kernel sched platform k idx).status = .ok) :
    sched k.c platform platform.qubit_number k.creg_count ≠ [] ∧
    ∀ last, (sched k.c platform platform.qubit_number k.creg_count).getLast? = some last →
      (compile_kernel sched platform k idx).out =
        (codegen_kernel_prologue k idx).out ++
          .cc_light_schedule k.c platform platform.qubit_number k.creg_count ::
          .kernel_start ::
          ((codegen_bundles (sched k.c platform platform.qubit_number k.creg_count)
              platform idx).out ++
            .kernel_finish k.name (last.start_cycle + last.duration_in_cycles) ::
            (codegen_kernel_epilogue k
              (idx + (sched k.c platform platform.qubit_number k.creg_count).length)).out) := by
  rw [compile_kernel_of_gates sched platform k idx hc] at h ⊢
  obtain ⟨h1, h2, h3, h4⟩ := andThen_ok_out _ _ h
  obtain ⟨_, h6, h7, h8⟩ := andThen_ok_out _ _ h1
  rw [prologue_bundleIdx] at h6 h7 h8
  obtain ⟨h9, h10, h11, h12⟩ := andThen_ok_out _ _ h6
  obtain ⟨_, h14, h15, h16⟩ := andThen_ok_out _ _ h9
  have hi : ((emit (.cc_light_schedule k.c platform platform.qubit_number k.creg_count)
      idx).andThen (emit .kernel_start)).bundleIdx = idx := rfl
  have ho : ((emit (.cc_light_schedule k.c platform platform.qubit_number k.creg_count)
      idx).andThen (emit .kernel_start)).out =
      [.cc_light_schedule k.c platform platform.qubit_number k.creg_count, .kernel_start] := rfl
  rw [hi] at h14 h15 h16
  have hl := (codegen_bundles_loop_starts _ idx h14).2
  have hl2 : (codegen_bundles (sched k.c platform platform.qubit_number k.creg_count)
      platform idx).bundleIdx =
      idx + (sched k.c platform platform.qubit_number k.creg_count).length := hl
  rw [h16, hl2] at h10 h11 h12
  rw [h8, h12] at h2 h3
  have hne := (codegen_kernel_finish_ok k _ _).mp h10
  refine ⟨hne, ?_⟩
  · intro last hg
    have hf : (codegen_kernel_finish k (sched k.c platform platform.qubit_number k.creg_count)
        (idx + (sched k.c platform platform.qubit_number k.creg_count).length)).out =
        [.kernel_finish k.name (last.start_cycle + last.duration_in_cycles)] := by
      simp [codegen_kernel_finish, hg, emit]
    rw [(codegen_kernel_finish_quiet k _ _).2] at h3
    rw [h3, h7, h11, h15, ho, hf]
    simp

/-- Witness of C12: the scheduler answers with a bundle at cycle 10 of duration 5
followed by a bundle at cycle 2 of duration 1; the end cycle is that of the bundle in
the final position, 3, not the largest, 15. -/
theorem kernel_markers_witness :
    (compile_kernel (fun _ _ _ _ =>
        [⟨10, 5, [[⟨"x", [0], [], 0, 5, .__custom_gate__⟩]]⟩,
         ⟨2, 1, [[⟨"y", [0], [], 0, 1, .__custom_gate__⟩]]⟩]) ⟨1⟩
      ⟨"k", .STATIC, [⟨"x", [0], [], 0, 5, .__custom_gate__⟩], 0, 0, ⟨[], ""⟩⟩ 0).out =
      [.comment "### Kernel: 'k'",
       .cc_light_schedule [⟨"x", [0], [], 0, 5, .__custom_gate__⟩] ⟨1⟩ 1 0,
       .kernel_start,
       .bundle_start "## Bundle 0: start_cycle=10, duration_in_cycles=5:",
       .custom_gate "x" [0] [] 0 10 5,
       .bundle_finish 10 5 false,
       .bundle_start "## Bundle 1: start_cycle=2, duration_in_cycles=1:",
       .custom_gate "y" [0] [] 0 2 1,
       .bundle_finish 2 1 true,
       .kernel_finish "k" 3] :=
  (kernel_markers (fun _ _ _ _ =>
      [⟨10, 5, [[⟨"x", [0], [], 0, 5, .__custom_gate__⟩]]⟩,
       ⟨2, 1, [[⟨"y", [0], [], 0, 1, .__custom_gate__⟩]]⟩]) ⟨1⟩
    ⟨"k", .STATIC, [⟨"x", [0], [], 0, 5, .__custom_gate__⟩], 0, 0, ⟨[], ""⟩⟩ 0
    (by decide) (by decide)).2 ⟨2, 1, [[⟨"y", [0], [], 0, 1, .__custom_gate__⟩]]⟩ rfl

/-- C19: `compile` reads `bundles.back()` for every kernel with gates without a check.
The lookup is defined exactly when the scheduler's sequence is not empty. For a kernel
with gates whose prologue returned and whose gates are scheduled into no bundle,
`codegen_bundles` emits nothing and the run of the kernel ends in the undefined lookup,
after the scheduler call and `kernel_start` and before any `kernel_finish`; so a kernel
with gates that is compiled successfully got at least one bundle. -/
theorem kernel_finish_needs_bundle (sched : Scheduler) (platform : quantum_platform)
    (k : quantum_kernel) (idx : Nat) (hc : k.c ≠ []) :
    (∀ bundles i, (codegen_kernel_finish k bundles i).status = .ok ↔ bundles ≠ []) ∧
    (∀ i, codegen_kernel_finish k [] i = ⟨.undefined "bundles.back()", i, []⟩) ∧
    (∀ i, codegen_bundles [] platform i = ⟨.ok, i, []⟩) ∧
    (sched k.c platform platform.qubit_number k.creg_count = [] →
      (codegen_kernel_prologue k idx).status = .ok →
      compile_kernel sched platform k idx =
        ⟨.undefined "bundles.back()", idx,
          (codegen_kernel_prologue k idx).out ++
            [.cc_light_schedule k.c platform platform.qubit_number k.creg_count,
             .kernel_start]⟩) ∧
    ((compile_kernel sched platform k idx).status = .ok →
      sched k.c platform platform.qubit_number k.creg_count ≠ []) := by
  refine ⟨fun bundles i => codegen_kernel_finish_ok k bundles i, fun i => rfl, fun i => rfl,
    ?_, ?_⟩
  · intro hs hp
    rw [compile_kernel_of_gates sched platform k idx hc, hs, andThen_of_ok _ _ hp,
      prologue_bundleIdx]
    simp [codegen_bundles, codegen_bundles_loop, codegen_kernel_finish, emit, skip, UB,
      Run.andThen]
  · intro h
    rw [compile_kernel_of_gates sched platform k idx hc] at h
    obtain ⟨h1, _, _, _⟩ := andThen_ok_out _ _ h
    obtain ⟨_, h6, _, _⟩ := andThen_ok_out _ _ h1
    obtain ⟨_, h10, _, _⟩ := andThen_ok_out _ _ h6
    exact (codegen_kernel_finish_ok k _ _).mp h10

/-- Witness of C19: a kernel with one gate and a scheduler that returns no bundle. -/
theorem kernel_finish_needs_bundle_witness :
    compile_kernel (fun _ _ _ _ => []) ⟨1⟩
        ⟨"k", .STATIC, [⟨"x", [0], [], 0, 5, .__custom_gate__⟩], 0, 0, ⟨[], ""⟩⟩ 3 =
      ⟨.undefined "bundles.back()", 3,
        [.comment "### Kernel: 'k'",
         .cc_light_schedule [⟨"x", [0], [], 0, 5, .__custom_gate__⟩] ⟨1⟩ 1 0,
         .kernel_start]⟩ :=
  (kernel_finish_needs_bundle (fun _ _ _ _ => []) ⟨1⟩
    ⟨"k", .STATIC, [⟨"x", [0], [], 0, 5, .__custom_gate__⟩], 0, 0, ⟨[], ""⟩⟩ 3
    (by decide)).2.2.2.1 rfl (by decide)

/-! ## The label of a kernel -/

theorem isspace_replace (ch : Char) :
    isspace (if ch == '_' then Char.ofNat 32 else ch) = isSep ch := by
  by_cases h : ch = '_'
  · subst h
    decide
  · simp [isSep, h]

theorem replace_of_not_isSep (ch : Char) (h : isSep ch = false) :
    (if ch == '_' then Char.ofNat 32 else ch) = ch := by
  have h2 : ch ≠ '_' := by
    intro hc
    subst hc
    simp [isSep] at h
  simp [h2]

/-- While a token is being read, the first token of the result is what has been read
followed by the characters up to the next white space. -/
theorem tokensFrom_head_of_cur (cs cur : List Char) (hcur : cur ≠ []) :
    (tokensFrom cs cur).head? =
      some (cur.reverse ++ cs.takeWhile fun ch => !isspace ch) := by
  induction cs generalizing cur with
  | nil =>
    cases cur with
    | nil => exact absurd rfl hcur
    | cons x rest => simp [tokensFrom]
  | cons ch rest ih =>
    by_cases hs : isspace ch = true
    · cases cur with
      | nil => exact absurd rfl hcur
      | cons x xs => simp [tokensFrom, hs]
    · simp only [Bool.not_eq_true] at hs
      rw [tokensFrom]
      simp only [hs, Bool.false_eq_true, if_false]
      rw [ih (ch :: cur) (by simp)]
      simp [List.takeWhile_cons, hs]

/-- Between tokens, the first token of the result is the first run of characters that
are not white space, if there is one. -/
theorem tokensFrom_head (cs : List Char) :
    (tokensFrom cs []).head? =
      if cs.dropWhile isspace = [] then none
      else some ((cs.dropWhile isspace).takeWhile fun ch => !isspace ch) := by
  induction cs with
  | nil => simp [tokensFrom]
  | cons ch rest ih =>
    by_cases hs : isspace ch = true
    · rw [tokensFrom]
      simp only [hs, if_true, List.isEmpty_nil, List.dropWhile_cons]
      exact ih
    · simp only [Bool.not_eq_true] at hs
      rw [tokensFrom]
      simp only [hs, Bool.false_eq_true, if_false]
      rw [tokensFrom_head_of_cur rest [ch] (by simp)]
      simp [List.dropWhile_cons, List.takeWhile_cons, hs]

theorem dropWhile_replace (name : List Char) :
    (replaceUnderscore name).dropWhile isspace = replaceUnderscore (name.dropWhile isSep) := by
  unfold replaceUnderscore
  rw [List.dropWhile_map]
  congr 2
  funext ch
  exact isspace_replace ch

theorem takeWhile_replace (name : List Char) :
    (replaceUnderscore name).takeWhile (fun ch => !isspace ch) =
      name.takeWhile fun ch => !isSep ch := by
  induction name with
  | nil => rfl
  | cons ch rest ih =>
    unfold replaceUnderscore at ih ⊢
    rw [List.map_cons, List.takeWhile_cons, List.takeWhile_cons, isspace_replace]
    by_cases h : isSep ch = true
    · simp [h]
    · simp only [Bool.not_eq_true] at h
      simp only [h, Bool.not_false, if_true]
      rw [ih, replace_of_not_isSep ch h]

/-- The label is the first token of the name, and it exists exactly when the name has a
character that is not a separator. -/
theorem kernelLabel_eq (k : quantum_kernel) :
    kernelLabel k =
      if k.name.data.dropWhile isSep = [] then none
      else some (String.mk (firstToken k.name.data)) := by
  unfold kernelLabel tokens
  rw [tokensFrom_head, dropWhile_replace, takeWhile_replace]
  by_cases h : k.name.data.dropWhile isSep = []
  · simp [h, replaceUnderscore]
  · have h2 : replaceUnderscore (k.name.data.dropWhile isSep) ≠ [] := by
      simpa [replaceUnderscore] using h
    simp [h, h2, firstToken]

theorem dropWhile_isSep_ne_nil (name : List Char) :
    name.dropWhile isSep ≠ [] ↔ ∃ ch ∈ name, isSep ch = false := by
  rw [Ne, List.dropWhile_eq_nil_iff]
  simp

theorem firstToken_not_isSep (name : List Char) :
    ∀ ch ∈ firstToken name, isSep ch = false := by
  intro ch hch
  have := List.mem_takeWhile_imp hch
  simpa using this

theorem firstToken_ne_nil (name : List Char) (h : name.dropWhile isSep ≠ []) :
    firstToken name ≠ [] := by
  unfold firstToken
  cases hd : name.dropWhile isSep with
  | nil => exact absurd hd h
  | cons x rest =>
    have hx : isSep ((name.dropWhile isSep).head h) = false := List.head_dropWhile_not isSep name h
    simp only [hd, List.head_cons] at hx
    simp [List.takeWhile_cons, hx]

/-- A name made of characters that are not separators is its own first token. -/
theorem firstToken_of_no_sep (name : List Char) (h : ∀ ch ∈ name, isSep ch = false) :
    name.dropWhile isSep = name ∧ firstToken name = name := by
  have h1 : name.dropWhile isSep = name := by
    cases name with
    | nil => rfl
    | cons x rest => simp [List.dropWhile_cons, h x (List.mem_cons_self _ _)]
  refine ⟨h1, ?_⟩
  unfold firstToken
  rw [h1, List.takeWhile_eq_self_iff]
  intro ch hch
  simp [h ch hch]

theorem kernelLabel_of_label (k k2 : quantum_kernel) (lbl : String)
    (h : kernelLabel k = some lbl) (h2 : k2.name = lbl) : kernelLabel k2 = some lbl := by
  rw [kernelLabel_eq] at h
  by_cases hd : k.name.data.dropWhile isSep = []
  · simp [hd] at h
  · simp only [hd, if_false, Option.some.injEq] at h
    have hdata : k2.name.data = firstToken k.name.data := by
      rw [h2, ← h]
    have hns := firstToken_of_no_sep k2.name.data (by
      rw [hdata]
      exact firstToken_not_isSep _)
    have hne : k2.name.data.dropWhile isSep ≠ [] := by
      rw [hns.1, hdata]
      exact firstToken_ne_nil _ hd
    rw [kernelLabel_eq, if_neg hne, hns.2, ← h2]

/-- C14: label derivation is a function of the name, with `kernelLabel` of
"sp1_for1_start" equal to "sp1" and of "loop_body_2" equal to "loop", and it is
idempotent: when a kernel has a label, a kernel named by that label has the same
label. -/
theorem label_idempotent :
    (∀ k : quantum_kernel, k.name = "sp1_for1_start" → kernelLabel k = some "sp1") ∧
    (∀ k : quantum_kernel, k.name = "loop_body_2" → kernelLabel k = some "loop") ∧
    (∀ (k k2 : quantum_kernel) (lbl : String),
      kernelLabel k = some lbl → k2.name = lbl → kernelLabel k2 = some lbl) := by
  refine ⟨?_, ?_, kernelLabel_of_label⟩
  · intro k hk
    unfold kernelLabel
    rw [hk]
    decide
  · intro k hk
    unfold kernelLabel
    rw [hk]
    decide

/-- Witness of C14: the label "sp1" of "sp1_for1_start" is the label of a kernel named
"sp1". -/
theorem label_idempotent_witness :
    kernelLabel ⟨"sp1_for1_start", .FOR_START, [], 3, 0, ⟨[], ""⟩⟩ = some "sp1" ∧
    kernelLabel ⟨"sp1", .FOR_END, [], 0, 0, ⟨[], ""⟩⟩ = some "sp1" :=
  ⟨label_idempotent.1 ⟨"sp1_for1_start", .FOR_START, [], 3, 0, ⟨[], ""⟩⟩ rfl,
   label_idempotent.2.2 ⟨"sp1_for1_start", .FOR_START, [], 3, 0, ⟨[], ""⟩⟩
     ⟨"sp1", .FOR_END, [], 0, 0, ⟨[], ""⟩⟩ "sp1" (by decide) rfl⟩

/-- C15: for a kernel name with at least one character that is neither an underscore
nor white space, `kernelLabel` returns the first token of the name: the first maximal
run of such characters, the underscores and the white space before it skipped. The label
is not empty, holds no underscore and no white space, and depends on the first token
only: a kernel whose name has the same first token has the same label. -/
theorem label_is_first_token (k : quantum_kernel)
    (h : ∃ ch ∈ k.name.data, isSep ch = false) :
    kernelLabel k = some (String.mk (firstToken k.name.data)) ∧
    firstToken k.name.data ≠ [] ∧
    (∀ ch ∈ firstToken k.name.data, ch ≠ '_' ∧ isspace ch = false) ∧
    (∀ k2 : quantum_kernel, firstToken k2.name.data = firstToken k.name.data →
      kernelLabel k2 = kernelLabel k) := by
  have hd : k.name.data.dropWhile isSep ≠ [] := (dropWhile_isSep_ne_nil _).mpr h
  have hl : kernelLabel k = some (String.mk (firstToken k.name.data)) := by
    rw [kernelLabel_eq, if_neg hd]
  have hne := firstToken_ne_nil _ hd
  refine ⟨hl, hne, ?_, ?_⟩
  · intro ch hch
    have hs := firstToken_not_isSep _ ch hch
    simp only [isSep, Bool.or_eq_false_iff, beq_eq_false_iff_ne] at hs
    exact ⟨hs.1, hs.2⟩
  · intro k2 h2
    have hd2 : k2.name.data.dropWhile isSep ≠ [] := by
      intro hc
      apply hne
      rw [← h2]
      simp [firstToken, hc]
    rw [hl, kernelLabel_eq, if_neg hd2, h2]

/-- Witness of C15: "sp1_for1_start" and "sp1_for1_end" share the first token, and both
kernels get the label "sp1". -/
theorem label_is_first_token_witness :
    kernelLabel ⟨"sp1_for1_start", .FOR_START, [], 3, 0, ⟨[], ""⟩⟩ =
      some (String.mk (firstToken "sp1_for1_start".data)) ∧
    firstToken "sp1_for1_start".data = "sp1".data ∧
    kernelLabel ⟨"sp1_for1_end", .FOR_END, [], 0, 0, ⟨[], ""⟩⟩ =
      kernelLabel ⟨"sp1_for1_start", .FOR_START, [], 3, 0, ⟨[], ""⟩⟩ :=
  ⟨(label_is_first_token ⟨"sp1_for1_start", .FOR_START, [], 3, 0, ⟨[], ""⟩⟩
      ⟨'s', by decide, by decide⟩).1,
   by decide,
   (label_is_first_token ⟨"sp1_for1_start", .FOR_START, [], 3, 0, ⟨[], ""⟩⟩
      ⟨'s', by decide, by decide⟩).2.2.2 ⟨"sp1_for1_end", .FOR_END, [], 0, 0, ⟨[], ""⟩⟩
      (by decide)⟩

/-- Counterexample to C16: the name "_" is not empty, yet it has no token, and the
lookup `tokens[0]` of `kernelLabel` is not defined for it; the same holds for a name
that is a single blank. -/
theorem label_of_underscore_counterexample :
    ("_" : String) ≠ "" ∧ tokens "_" = [] ∧
    kernelLabel ⟨"_", .FOR_START, [], 3, 0, ⟨[], ""⟩⟩ = none ∧
    tokens " " = [] ∧
    codegen_kernel_prologue ⟨"_", .FOR_START, [], 3, 0, ⟨[], ""⟩⟩ 0 =
      ⟨.undefined "tokens[0]", 0, [.comment "### Kernel: '_'"]⟩ := by
  decide

/-- C16, amended: the kernel names without a token are exactly those that consist of
underscores and white space only, the empty name among them. For every name with at
least one other character the lookup `tokens[0]` is defined and a label is returned,
and for no other name. -/
theorem label_defined_iff (k : quantum_kernel) :
    (tokens k.name = [] ↔ ∀ ch ∈ k.name.data, isSep ch = true) ∧
    (kernelLabel k = none ↔ ∀ ch ∈ k.name.data, isSep ch = true) ∧
    ((∃ lbl, kernelLabel k = some lbl) ↔ ∃ ch ∈ k.name.data, isSep ch = false) := by
  have hnone : kernelLabel k = none ↔ ∀ ch ∈ k.name.data, isSep ch = true := by
    rw [kernelLabel_eq, ← List.dropWhile_eq_nil_iff]
    by_cases hd : k.name.data.dropWhile isSep = [] <;> simp [hd]
  refine ⟨?_, hnone, ?_⟩
  · rw [← hnone]
    unfold kernelLabel
    cases tokens k.name <;> simp
  · rw [← dropWhile_isSep_ne_nil, kernelLabel_eq]
    by_cases hd : k.name.data.dropWhile isSep = [] <;> simp [hd]

/-! ## The comment naming the kernel -/

/-- Counterexample to C17: the epilogue of the `FOR_END` kernel "sp1_for1_end" emits
`for_end("sp1")` and no comment. -/
theorem epilogue_comment_counterexample :
    (codegen_kernel_epilogue ⟨"sp1_for1_end", .FOR_END, [], 0, 0, ⟨[], ""⟩⟩ 0).out =
      [.for_end "sp1"] ∧
    (codegen_kernel_epilogue ⟨"sp1_for1_end", .FOR_END, [], 0, 0, ⟨[], ""⟩⟩ 0).out.filter
      Event.isComment = [] := by
  decide

/-- C17, amended: every call of `codegen_kernel_prologue`, for every kernel type, first
emits a comment naming the kernel, also when the call then fails; a call of
`codegen_kernel_epilogue` emits no comment, for any kernel type. -/
theorem comment_in_prologue_only (k : quantum_kernel) (idx : Nat) :
    (∃ rest, (codegen_kernel_prologue k idx).out = .comment (kernelComment k) :: rest) ∧
    (∀ e ∈ (codegen_kernel_epilogue k idx).out, e.isComment = false) := by
  constructor
  · unfold codegen_kernel_prologue
    rw [emit_andThen]
    exact ⟨_, rfl⟩
  · unfold codegen_kernel_epilogue
    split <;> (try split) <;> (try split) <;> simp [emit, skip, FATAL, UB, Event.isComment]

/-! ## The files written -/

/-- The end of `compile` writes the program, and the instrument map exactly when the
option `backend_cc_map_input_file` is not empty. -/
theorem write_files_eq (opts : Options) (prog_name : String) (idx : Nat) :
    write_files opts prog_name idx =
      ⟨.ok, idx,
        .write_file (opts.output_dir ++ "/" ++ prog_name ++ ".vq1asm") .getCode ::
          if opts.backend_cc_map_input_file = "" then []
          else [.write_file (opts.output_dir ++ "/" ++ prog_name ++ ".map") .getMap]⟩ := by
  unfold write_files
  rw [emit_andThen]
  by_cases h : opts.backend_cc_map_input_file = "" <;> simp [h, emit, skip]

/-- C18, the code at the failing input: with a map input file configured
(`backend_cc_map_input_file` is "in.map") a successful `compile` writes the program and
the instrument map "out/p.map"; with no map input file configured (the option is empty)
it writes the program only. -/
theorem map_written_when_input_configured :
    (compile (fun _ _ _ _ => []) ⟨"out", "in.map"⟩ "p"
        [⟨"k", .STATIC, [], 0, 0, ⟨[], ""⟩⟩] ⟨1⟩ 0).status = .ok ∧
    (compile (fun _ _ _ _ => []) ⟨"out", "in.map"⟩ "p"
        [⟨"k", .STATIC, [], 0, 0, ⟨[], ""⟩⟩] ⟨1⟩ 0).out.filter Event.isWriteFile =
      [.write_file "out/p.vq1asm" .getCode, .write_file "out/p.map" .getMap] ∧
    (compile (fun _ _ _ _ => []) ⟨"out", ""⟩ "p"
        [⟨"k", .STATIC, [], 0, 0, ⟨[], ""⟩⟩] ⟨1⟩ 0).status = .ok ∧
    (compile (fun _ _ _ _ => []) ⟨"out", ""⟩ "p"
        [⟨"k", .STATIC, [], 0, 0, ⟨[], ""⟩⟩] ⟨1⟩ 0).out.filter Event.isWriteFile =
      [.write_file "out/p.vq1asm" .getCode] := by
  decide

/-! ## Splitting a circuit into blocks -/

theorem foldl_split_step_flatten (c : circuit) (cs : Blocks) :
    ((c.foldl split_step cs).front ++ [(c.foldl split_step cs).back]).flatten =
      (cs.front ++ [cs.back]).flatten ++ c := by
  induction c generalizing cs with
  | nil => simp
  | cons g rest ih =>
    rw [List.foldl_cons, ih]
    unfold split_step
    split <;> simp

theorem foldl_split_step_length (c : circuit) (cs : Blocks) :
    (c.foldl split_step cs).front.length = cs.front.length + 2 * c.countP isPrepzOrMeasure := by
  induction c generalizing cs with
  | nil => simp
  | cons g rest ih =>
    rw [List.foldl_cons, ih, List.countP_cons]
    unfold split_step
    split
    · rename_i h
      simp only [h, if_true, List.length_append, List.length_cons, List.length_nil]
      omega
    · rename_i h
      simp [h]

theorem foldl_split_step_alone (c : circuit) (cs : Blocks)
    (hf : ∀ block ∈ cs.front, ∀ g ∈ block, isPrepzOrMeasure g = true → block = [g])
    (hb : ∀ g ∈ cs.back, isPrepzOrMeasure g = false) :
    (∀ block ∈ (c.foldl split_step cs).front,
      ∀ g ∈ block, isPrepzOrMeasure g = true → block = [g]) ∧
    (∀ g ∈ (c.foldl split_step cs).back, isPrepzOrMeasure g = false) := by
  induction c generalizing cs with
  | nil => exact ⟨hf, hb⟩
  | cons x rest ih =>
    rw [List.foldl_cons]
    apply ih
    · unfold split_step
      split
      · intro block hblock g hg hpm
        simp only [List.mem_append, List.mem_cons, List.mem_singleton, List.not_mem_nil,
          or_false] at hblock
        rcases hblock with hblock | hblock | hblock
        · exact hf block hblock g hg hpm
        · subst hblock
          rw [hb g hg] at hpm
          simp at hpm
        · subst hblock
          simp only [List.mem_singleton] at hg
          rw [hg]
      · exact hf
    · unfold split_step
      split
      · simp
      · rename_i h
        intro g hg
        simp only [List.mem_append, List.mem_singleton] at hg
        rcases hg with hg | hg
        · exact hb g hg
        · subst hg
          simpa using h

/-- C20: `split_circuit` cuts a circuit at its prepz and measure gates without losing
or reordering a gate. The blocks, concatenated in order, give the circuit back; there
are 1 + 2·m blocks, where m is the number of prepz and measure gates, so one empty block
for the empty circuit; a block that holds a prepz or measure gate holds that gate alone,
and every prepz or measure gate of the circuit has such a block. -/
theorem split_circuit_partition (c : circuit) :
    (split_circuit c).flatten = c ∧
    (split_circuit c).length = 1 + 2 * c.countP isPrepzOrMeasure ∧
    split_circuit [] = [[]] ∧
    (∀ block ∈ split_circuit c, ∀ g ∈ block, isPrepzOrMeasure g = true → block = [g]) ∧
    (∀ g ∈ c, isPrepzOrMeasure g = true → [g] ∈ split_circuit c) := by
  have hflat : (split_circuit c).flatten = c := by
    have := foldl_split_step_flatten c ⟨[], []⟩
    simpa [split_circuit] using this
  have halone : ∀ block ∈ split_circuit c,
      ∀ g ∈ block, isPrepzOrMeasure g = true → block = [g] := by
    have h := foldl_split_step_alone c ⟨[], []⟩ (by simp) (by simp)
    intro block hblock g hg hpm
    simp only [split_circuit, List.mem_append, List.mem_singleton] at hblock
    rcases hblock with hblock | hblock
    · exact h.1 block hblock g hg hpm
    · subst hblock
      rw [h.2 g hg] at hpm
      simp at hpm
  refine ⟨hflat, ?_, rfl, halone, ?_⟩
  · have := foldl_split_step_length c ⟨[], []⟩
    simp only [split_circuit, List.length_append, List.length_singleton, this, List.length_nil]
    omega
  · intro g hg hpm
    rw [← hflat] at hg
    obtain ⟨block, hblock, hgb⟩ := List.mem_flatten.mp hg
    rw [← halone block hblock g hgb hpm]
    exact hblock

/-! ## Measurements in a circuit -/

theorem contains_measurements_iff (c : circuit) :
    contains_measurements c = true ↔
      ∃ g ∈ c, g.type = .__measure_gate__ ∨ g.type = .__prepz_gate__ := by
  induction c with
  | nil => simp [contains_measurements]
  | cons x rest ih =>
    unfold contains_measurements
    by_cases hm : x.type = .__measure_gate__
    · simp [hm]
    · by_cases hp : x.type = .__prepz_gate__
      · simp [hp]
      · simp [hm, hp, ih]

theorem countP_isPrepzOrMeasure_pos (c : circuit) :
    0 < c.countP isPrepzOrMeasure ↔
      ∃ g ∈ c, g.type = .__measure_gate__ ∨ g.type = .__prepz_gate__ := by
  rw [List.countP_pos_iff]
  constructor
  · rintro ⟨g, hg, hpm⟩
    refine ⟨g, hg, ?_⟩
    simp only [isPrepzOrMeasure, Bool.or_eq_true, beq_iff_eq] at hpm
    exact hpm.symm
  · rintro ⟨g, hg, hpm⟩
    refine ⟨g, hg, ?_⟩
    simp only [isPrepzOrMeasure, Bool.or_eq_true, beq_iff_eq]
    exact hpm.symm

/-- C21: for every circuit, `contains_measurements` returns true exactly when the
circuit holds a gate of type `__measure_gate__` or `__prepz_gate__`, and that is the
case exactly when `split_circuit` returns more than one block. A circuit that holds a
qubit preparation and no measurement gives true. -/
theorem contains_measurements_spec (c : circuit) :
    (contains_measurements c = true ↔
      ∃ g ∈ c, g.type = .__measure_gate__ ∨ g.type = .__prepz_gate__) ∧
    ((∃ g ∈ c, g.type = .__measure_gate__ ∨ g.type = .__prepz_gate__) ↔
      1 < (split_circuit c).length) ∧
    (contains_measurements c = true ↔ 1 < (split_circuit c).length) ∧
    ((∃ g ∈ c, g.type = .__prepz_gate__) → (∀ g ∈ c, g.type ≠ .__measure_gate__) →
      contains_measurements c = true) := by
  have h1 := contains_measurements_iff c
  have hlen : (split_circuit c).length = 1 + 2 * c.countP isPrepzOrMeasure := by
    have := foldl_split_step_length c ⟨[], []⟩
    simp only [split_circuit, List.length_append, List.length_singleton, this, List.length_nil]
    omega
  have h2 : (∃ g ∈ c, g.type = .__measure_gate__ ∨ g.type = .__prepz_gate__) ↔
      1 < (split_circuit c).length := by
    rw [← countP_isPrepzOrMeasure_pos, hlen]
    omega
  refine ⟨h1, h2, h1.trans h2, ?_⟩
  rintro ⟨g, hg, hp⟩ _
  exact h1.mpr ⟨g, hg, Or.inr hp⟩

/-- Witness of C21: a circuit with a preparation of qubit 0 followed by the custom gate
"x" and no measurement; `contains_measurements` is true and `split_circuit` gives three
blocks. -/
theorem contains_measurements_spec_witness :
    contains_measurements
        [⟨"prepz", [0], [], 0, 1, .__prepz_gate__⟩, ⟨"x", [0], [], 0, 1, .__custom_gate__⟩] =
      true ∧
    split_circuit
        [⟨"prepz", [0], [], 0, 1, .__prepz_gate__⟩, ⟨"x", [0], [], 0, 1, .__custom_gate__⟩] =
      [[], [⟨"prepz", [0], [], 0, 1, .__prepz_gate__⟩],
       [⟨"x", [0], [], 0, 1, .__custom_gate__⟩]] :=
  ⟨(contains_measurements_spec
      [⟨"prepz", [0], [], 0, 1, .__prepz_gate__⟩,
       ⟨"x", [0], [], 0, 1, .__custom_gate__⟩]).2.2.2
      ⟨_, List.mem_cons_self _ _, rfl⟩ (by decide),
   by decide⟩

end OpenQL
